import Mathlib

/-!
Verification of the vtuber analytics harvester (src/analytics.py, src/test.py)
against its specification.

Shallow embedding conventions:
* Remote HTTP responses are modelled at the level the code observes them:
  a call either returns a structured value, raises a quota-classified
  `HttpError` (`is_quota_error` is true: HTTP 403 whose body mentions
  `quotaExceeded` / `dailyLimitExceeded`), raises some other `HttpError`,
  or raises a non-`HttpError` exception.  These four cases are the `Res`
  type below; the vendor classification itself is opaque to the claims.
* The global `rotator : ApiKeyRotator` is explicit state: the number of
  keys `nkeys` is fixed at load time and the current index is threaded
  through every call.  `build(...)` only rebinds the client to a key, so a
  client handle is identified with its key index.
* Timestamps are absolute instants in seconds.  `datetime.astimezone(JST)`
  changes only the representation, never the instant, and comparisons of
  aware datetimes compare instants, so the UTC→UTC+9 conversion is the
  identity on the modelled instants.
* Python `float` means are modelled with `Rat`; the claims under scrutiny
  only concern the exactly-representable value `0.0` and division safety.
-/

namespace VA

/-- Outcome of one remote call as classified by the code: a structured
response, a quota-classified `HttpError`, any other `HttpError`, or a
non-`HttpError` exception. -/
inductive Res (α : Type) where
  | ok (a : α)
  | quotaErr
  | httpErr
  | exc
deriving DecidableEq, Repr

/-- Re-raise an error at a different result type (used where Python
propagates an exception out of a context with another return type). -/
def Res.castErr : Res α → Res β
  | .ok _ => .exc
  | .quotaErr => .quotaErr
  | .httpErr => .httpErr
  | .exc => .exc

/-- Body of `with_quota_rotation` (analytics.py:56-71).  `op k` is the
result of executing the request against the client built from key `k`;
`n` is the pool size and `i` the rotator's current index.  Returns the
final result, the final rotator index, and the list of key indices the
operation was invoked against, in invocation order.  The loop re-invokes
only after `ApiKeyRotator.next` succeeds, i.e. while `i + 1 < n`
(analytics.py:36-43), so `n - i` steps of fuel always suffice. -/
def withQuotaRotationAux (op : Nat → Res α) (n : Nat) : Nat → Nat → Res α × Nat × List Nat
  | 0, i => (Res.quotaErr, i, [])
  | fuel + 1, i =>
    match op i with
    | Res.quotaErr =>
      if i + 1 < n then
        let r := withQuotaRotationAux op n fuel (i + 1)
        (r.1, r.2.1, i :: r.2.2)
      else (Res.quotaErr, i, [i])
    | r => (r, i, [i])

/-- Embedding of `with_quota_rotation` (analytics.py:56-71) started at rotator index `i`
over a pool of `n` keys. -/
def with_quota_rotation (op : Nat → Res α) (n i : Nat) : Res α × Nat × List Nat :=
  withQuotaRotationAux op n (n - i) i

/-- Full characterisation of the rotation loop: it invokes the operation at
indices `i, i+1, ..., k` where every index before `k` produced a quota
error; the final result is `op k` unless `op k` is itself a quota error, in
which case the pool was exhausted (`k = n - 1`) and the quota error is
re-raised. -/
theorem withQuotaRotationAux_spec (op : Nat → Res α) (n : Nat) :
    ∀ fuel i, i < n → n ≤ fuel + i →
    ∃ k, i ≤ k ∧ k < n ∧
      (withQuotaRotationAux op n fuel i).2.1 = k ∧
      (withQuotaRotationAux op n fuel i).2.2 = List.range' i (k + 1 - i) ∧
      (∀ j, i ≤ j → j < k → op j = Res.quotaErr) ∧
      (op k ≠ Res.quotaErr → (withQuotaRotationAux op n fuel i).1 = op k) ∧
      (op k = Res.quotaErr →
        k = n - 1 ∧ (withQuotaRotationAux op n fuel i).1 = Res.quotaErr) := by
  intro fuel
  induction fuel with
  | zero => intro i hi hn; omega
  | succ fuel ih =>
    intro i hi hn
    have h1 : i + 1 - i = 1 := by omega
    cases hop : op i with
    | quotaErr =>
      by_cases hlt : i + 1 < n
      · obtain ⟨k, hik, hkn, hidx, hvis, hall, hok, hq⟩ := ih (i + 1) hlt (by omega)
        have hrange : i :: List.range' (i + 1) (k + 1 - (i + 1)) = List.range' i (k + 1 - i) := by
          have h2 : k + 1 - i = (k + 1 - (i + 1)) + 1 := by omega
          rw [h2, List.range'_succ]
        refine ⟨k, by omega, hkn, ?_, ?_, ?_, ?_, ?_⟩
        · simp only [withQuotaRotationAux, hop, if_pos hlt]
          exact hidx
        · simp only [withQuotaRotationAux, hop, if_pos hlt]
          rw [← hrange, hvis]
        · intro j hij hjk
          rcases Nat.eq_or_lt_of_le hij with h | h
          · exact h ▸ hop
          · exact hall j h hjk
        · intro hne
          simp only [withQuotaRotationAux, hop, if_pos hlt]
          exact hok hne
        · intro hqe
          refine ⟨(hq hqe).1, ?_⟩
          simp only [withQuotaRotationAux, hop, if_pos hlt]
          exact (hq hqe).2
      · refine ⟨i, le_refl i, hi, ?_, ?_, by omega, fun hne => absurd hop hne, fun _ => ⟨by omega, ?_⟩⟩
        · simp [withQuotaRotationAux, hop, if_neg hlt]
        · simp [withQuotaRotationAux, hop, if_neg hlt, h1, List.range'_one]
        · simp [withQuotaRotationAux, hop, if_neg hlt]
    | ok a =>
      refine ⟨i, le_refl i, hi, ?_, ?_, by omega, fun _ => ?_, fun hqe => by simp [hop] at hqe⟩
      · simp [withQuotaRotationAux, hop]
      · simp [withQuotaRotationAux, hop, h1, List.range'_one]
      · simp [withQuotaRotationAux, hop]
    | httpErr =>
      refine ⟨i, le_refl i, hi, ?_, ?_, by omega, fun _ => ?_, fun hqe => by simp [hop] at hqe⟩
      · simp [withQuotaRotationAux, hop]
      · simp [withQuotaRotationAux, hop, h1, List.range'_one]
      · simp [withQuotaRotationAux, hop]
    | exc =>
      refine ⟨i, le_refl i, hi, ?_, ?_, by omega, fun _ => ?_, fun hqe => by simp [hop] at hqe⟩
      · simp [withQuotaRotationAux, hop]
      · simp [withQuotaRotationAux, hop, h1, List.range'_one]
      · simp [withQuotaRotationAux, hop]

/-- Same characterisation for the wrapper. -/
theorem with_quota_rotation_spec (op : Nat → Res α) (n i : Nat) (hi : i < n) :
    ∃ k, i ≤ k ∧ k < n ∧
      (with_quota_rotation op n i).2.1 = k ∧
      (with_quota_rotation op n i).2.2 = List.range' i (k + 1 - i) ∧
      (∀ j, i ≤ j → j < k → op j = Res.quotaErr) ∧
      (op k ≠ Res.quotaErr → (with_quota_rotation op n i).1 = op k) ∧
      (op k = Res.quotaErr →
        k = n - 1 ∧ (with_quota_rotation op n i).1 = Res.quotaErr) :=
  withQuotaRotationAux_spec op n (n - i) i hi (by omega)

/-- If the current key does not produce a quota error, the loop invokes the
operation exactly once and returns its outcome unchanged (no rotation). -/
theorem with_quota_rotation_no_quota (op : Nat → Res α) (n i : Nat) (hi : i < n)
    (h : op i ≠ Res.quotaErr) :
    with_quota_rotation op n i = (op i, i, [i]) := by
  obtain ⟨f, hf⟩ : ∃ f, n - i = f + 1 := ⟨n - i - 1, by omega⟩
  rw [with_quota_rotation, hf]
  cases hop : op i with
  | quotaErr => exact absurd hop h
  | ok a => simp [withQuotaRotationAux, hop]
  | httpErr => simp [withQuotaRotationAux, hop]
  | exc => simp [withQuotaRotationAux, hop]

/-- Successive elements of `List.range' i m` differ by one. -/
theorem chain_range' : ∀ (m i : Nat), List.Chain' (fun a b => a + 1 = b) (List.range' i m)
  | 0, _ => List.chain'_nil
  | 1, i => by simp [List.range'_one]
  | m + 2, i => by
    rw [List.range'_succ, List.range'_succ, List.chain'_cons]
    exact ⟨rfl, by rw [← List.range'_succ]; exact chain_range' (m + 1) (i + 1)⟩

/-- C1: for every pool of `n ≥ 1` credentials with active index `i` and
every operation, `with_quota_rotation` first invokes the operation against
the active key `i`; on a quota error it advances and re-invokes; the keys
invoked are exactly `i, i+1, ..., k` — each at most once, in pool order,
never the same key twice in a row; a non-quota outcome at `k` is returned
or propagated unchanged with no further rotation; and when every remaining
key yields a quota error the loop reaches the last key `n - 1` and the
quota error propagates to the caller. -/
theorem quota_rotation_visits_in_order (op : Nat → Res α) (n i : Nat) (hi : i < n) :
    ∃ k, i ≤ k ∧ k < n ∧
      (with_quota_rotation op n i).2.2 = List.range' i (k + 1 - i) ∧
      ((with_quota_rotation op n i).2.2).head? = some i ∧
      ((with_quota_rotation op n i).2.2).Nodup ∧
      List.Chain' (fun a b => a + 1 = b) ((with_quota_rotation op n i).2.2) ∧
      (∀ j, i ≤ j → j < k → op j = Res.quotaErr) ∧
      (op k ≠ Res.quotaErr →
        (with_quota_rotation op n i).1 = op k ∧ (with_quota_rotation op n i).2.1 = k) ∧
      (op k = Res.quotaErr →
        k = n - 1 ∧ (with_quota_rotation op n i).1 = Res.quotaErr) := by
  obtain ⟨k, hik, hkn, hidx, hvis, hall, hok, hq⟩ := with_quota_rotation_spec op n i hi
  refine ⟨k, hik, hkn, hvis, ?_, ?_, ?_, hall, fun hne => ⟨hok hne, hidx⟩, fun hqe => (hq hqe)⟩
  · rw [hvis]
    have h1 : k + 1 - i = (k - i) + 1 := by omega
    rw [h1, List.range'_succ]
    rfl
  · rw [hvis]; exact List.nodup_range' _ _
  · rw [hvis]; exact chain_range' _ _

/-- Concrete instance of C1: two keys, the first quota-exhausted, the
second succeeding. -/
def demoOp : Nat → Res Nat := fun k => if k = 0 then Res.quotaErr else Res.ok 7

theorem quota_rotation_visits_in_order_witness :
    ∃ k, 0 ≤ k ∧ k < 2 ∧
      (with_quota_rotation demoOp 2 0).2.2 = List.range' 0 (k + 1 - 0) ∧
      ((with_quota_rotation demoOp 2 0).2.2).head? = some 0 ∧
      ((with_quota_rotation demoOp 2 0).2.2).Nodup ∧
      List.Chain' (fun a b => a + 1 = b) ((with_quota_rotation demoOp 2 0).2.2) ∧
      (∀ j, 0 ≤ j → j < k → demoOp j = Res.quotaErr) ∧
      (demoOp k ≠ Res.quotaErr →
        (with_quota_rotation demoOp 2 0).1 = demoOp k ∧
        (with_quota_rotation demoOp 2 0).2.1 = k) ∧
      (demoOp k = Res.quotaErr →
        k = 2 - 1 ∧ (with_quota_rotation demoOp 2 0).1 = Res.quotaErr) :=
  quota_rotation_visits_in_order demoOp 2 0 (by decide)

/-- Structural worker for `chunked`: the fuel dominates the length of the
remaining list, so the definition reduces in the kernel. -/
def chunkedAux : Nat → List α → Nat → List (List α)
  | 0, _, _ => []
  | _ + 1, [], _ => []
  | fuel + 1, a :: as, n =>
    if n = 0 then []
    else (a :: as).take n :: chunkedAux fuel ((a :: as).drop n) n

/-- Embedding of `chunked` (analytics.py:93-95, identical in test.py:28-30): successive
slices `seq[i:i+n]` for `i = 0, n, 2n, ...`.  `n = 0` raises `ValueError`
in Python (`range` step zero) and is mapped to `[]`; every call site uses
`n = 50`. -/
def chunked (s : List α) (n : Nat) : List (List α) := chunkedAux s.length s n

theorem chunkedAux_fuel (n : Nat) : ∀ fuel fuel' (s : List α),
    s.length ≤ fuel → s.length ≤ fuel' → chunkedAux fuel s n = chunkedAux fuel' s n := by
  intro fuel
  induction fuel with
  | zero =>
    intro fuel' s hf hf'
    have hs : s = [] := List.eq_nil_of_length_eq_zero (by omega)
    subst hs
    cases fuel' <;> rfl
  | succ fuel ih =>
    intro fuel' s hf hf'
    cases s with
    | nil => cases fuel' <;> rfl
    | cons a as =>
      obtain ⟨f', rfl⟩ : ∃ f', fuel' = f' + 1 := ⟨fuel' - 1, by simp at hf'; omega⟩
      simp only [chunkedAux]
      by_cases hn : n = 0
      · rw [if_pos hn, if_pos hn]
      · rw [if_neg hn, if_neg hn]
        have hd : ((a :: as).drop n).length ≤ as.length := by
          simp only [List.length_drop, List.length_cons]
          omega
        simp only [List.length_cons] at hf hf'
        rw [ih f' ((a :: as).drop n) (by omega) (by omega)]

theorem chunked_nil (n : Nat) : chunked ([] : List α) n = [] := rfl

theorem chunked_cons (a : α) (as : List α) (n : Nat) (hn : n ≠ 0) :
    chunked (a :: as) n = (a :: as).take n :: chunked ((a :: as).drop n) n := by
  simp only [chunked, List.length_cons, chunkedAux, if_neg hn]
  congr 1
  apply chunkedAux_fuel
  · simp only [List.length_drop, List.length_cons]
    omega
  · exact le_refl _

theorem chunked_ne_nil (a : α) (as : List α) (n : Nat) (hn : n ≠ 0) :
    chunked (a :: as) n ≠ [] := by
  rw [chunked_cons a as n hn]
  exact List.cons_ne_nil _ _

/-- Concatenating the chunks gives back the input: chunks are contiguous
slices in input order. -/
theorem chunked_flatten (n : Nat) (hn : n ≠ 0) : (s : List α) → (chunked s n).flatten = s
  | [] => by rw [chunked_nil]; rfl
  | a :: as => by
    rw [chunked_cons a as n hn, List.flatten_cons,
      chunked_flatten n hn ((a :: as).drop n), List.take_append_drop]
termination_by s => s.length
decreasing_by simp [List.length_drop]; omega

/-- The number of chunks is `⌈length / n⌉`. -/
theorem chunked_length (n : Nat) (hn : n ≠ 0) :
    (s : List α) → (chunked s n).length = (s.length + n - 1) / n
  | [] => by
    rw [chunked_nil]
    simp only [List.length_nil, Nat.zero_add]
    exact (Nat.div_eq_of_lt (by omega)).symm
  | a :: as => by
    rw [chunked_cons a as n hn]
    simp only [List.length_cons, chunked_length n hn ((a :: as).drop n), List.length_drop,
      List.length_cons]
    rcases le_or_lt (as.length + 1) n with h | h
    · have h0 : as.length + 1 - n = 0 := by omega
      rw [h0]
      have h00 : 0 + n - 1 = n - 1 := by omega
      rw [h00, Nat.div_eq_of_lt (show n - 1 < n by omega)]
      have hone : (as.length + 1 + n - 1) / n = 1 := Nat.div_eq_of_lt_le (by omega) (by omega)
      omega
    · have hnum : as.length + 1 + n - 1 = (as.length + 1 - n + n - 1) + n := by omega
      rw [hnum, Nat.add_div_right _ (by omega)]
termination_by s => s.length
decreasing_by simp [List.length_drop]; omega

/-- If a chunking step recursed, the input had at least `n` elements. -/
theorem drop_ne_nil_ge (s : List α) (n : Nat) (b : α) (bs : List α)
    (h : s.drop n = b :: bs) : n ≤ s.length := by
  by_contra hcon
  have hnil : s.drop n = [] := List.drop_eq_nil_of_le (by omega)
  rw [hnil] at h
  exact List.cons_ne_nil b bs h.symm

/-- Every chunk except possibly the last has length exactly `n`. -/
theorem chunked_dropLast_length (n : Nat) (hn : n ≠ 0) :
    (s : List α) → ∀ c ∈ (chunked s n).dropLast, c.length = n
  | [] => by rw [chunked_nil]; intro c hc; simp at hc
  | a :: as => by
    rw [chunked_cons a as n hn]
    rcases h : (a :: as).drop n with _ | ⟨b, bs⟩
    · rw [chunked_nil]
      intro c hc
      simp at hc
    · rcases hch : chunked (b :: bs) n with _ | ⟨c0, cs⟩
      · exact absurd hch (chunked_ne_nil b bs n hn)
      · intro c hc
        rw [List.dropLast_cons₂] at hc
        rcases List.mem_cons.mp hc with rfl | hc
        · have hlen : n ≤ (a :: as).length := drop_ne_nil_ge (a :: as) n b bs h
          simp only [List.length_cons] at hlen
          simp only [List.length_take, List.length_cons]
          omega
        · have := chunked_dropLast_length n hn ((a :: as).drop n) c
          rw [h, hch] at this
          exact this hc
termination_by s => s.length
decreasing_by simp [List.length_drop]; omega

/-- The last chunk has length `length % n` when that is nonzero, else
exactly `n`. -/
theorem chunked_getLast_length (n : Nat) (hn : n ≠ 0) :
    (s : List α) → ∀ c, (chunked s n).getLast? = some c →
      c.length = (if s.length % n = 0 then n else s.length % n)
  | [] => by rw [chunked_nil]; intro c hc; simp at hc
  | a :: as => by
    rw [chunked_cons a as n hn]
    rcases h : (a :: as).drop n with _ | ⟨b, bs⟩
    · rw [chunked_nil]
      intro c hc
      simp only [List.getLast?_singleton, Option.some.injEq] at hc
      subst hc
      have hdl := List.length_drop n (a :: as)
      rw [h] at hdl
      simp only [List.length_nil, List.length_cons] at hdl
      simp only [List.length_take, List.length_cons]
      rcases Nat.lt_or_ge (as.length + 1) n with hlt | hge
      · have hm : (as.length + 1) % n = as.length + 1 := Nat.mod_eq_of_lt hlt
        rw [hm, if_neg (by omega)]
        omega
      · have heq : as.length + 1 = n := by omega
        rw [heq, Nat.mod_self, if_pos rfl]
        omega
    · rcases hch : chunked (b :: bs) n with _ | ⟨c0, cs⟩
      · exact absurd hch (chunked_ne_nil b bs n hn)
      · intro c hc
        rw [List.getLast?_cons_cons] at hc
        have hrec := chunked_getLast_length n hn ((a :: as).drop n) c
        rw [h, hch] at hrec
        have hrec := hrec hc
        have hlen : n ≤ (a :: as).length := drop_ne_nil_ge (a :: as) n b bs h
        have hbs : (b :: bs).length = (a :: as).length - n := by
          have hdl := List.length_drop n (a :: as)
          rw [h] at hdl
          exact hdl
        have hmod : ((a :: as).length - n) % n = (a :: as).length % n := by
          conv_rhs => rw [← Nat.sub_add_cancel hlen]
          rw [Nat.add_mod_right]
        rw [hbs, hmod] at hrec
        exact hrec
termination_by s => s.length
decreasing_by simp [List.length_drop]; omega

/-- Python true division raises `ZeroDivisionError` on a zero divisor; the
`none` case is that error. -/
def pyDiv (a b : Rat) : Option Rat :=
  if b = 0 then none else some (a / b)

/-- Embedding of `mean_or_zero` (analytics.py:208-209) and `mean` (test.py:105-106):
`sum(nums)/len(nums) if nums else 0.0`, with Python's division modelled
explicitly as the fallible `pyDiv`. -/
def pyMean (nums : List Int) : Option Rat :=
  if nums.isEmpty then some 0 else pyDiv ((nums.sum : Int) : Rat) ((nums.length : Nat) : Rat)

/-- Total shortcut of `pyMean`; `pyMean_eq_mean_or_zero` shows the guard
makes the division safe, so the two agree everywhere. -/
def mean_or_zero (nums : List Int) : Rat :=
  if nums.isEmpty then 0 else ((nums.sum : Int) : Rat) / ((nums.length : Nat) : Rat)

theorem pyMean_eq_mean_or_zero (nums : List Int) : pyMean nums = some (mean_or_zero nums) := by
  rcases nums with _ | ⟨a, as⟩
  · rfl
  · have hne : ((as.length : Rat) + 1) ≠ 0 := by positivity
    simp [pyMean, mean_or_zero, pyDiv, hne]

/-! URL classification (analytics.py:100-127).  `urlparse` is modelled at
the fidelity the code consumes: scheme removal, authority removal, and the
query/fragment split; percent-decoding in `parse_qs` and Unicode word
characters in `\w` are modelled as identity/ASCII, which agree on every
channel reference shape the patterns accept.  All string inspection is
by structural recursion over the character list, so the classifier is
computable by the kernel. -/

/-- Python `s.startswith(pre)` on character lists. -/
def csStarts : List Char → List Char → Bool
  | _, [] => true
  | [], _ :: _ => false
  | a :: as, b :: bs => a == b && csStarts as bs

/-- Python `str.startswith`. -/
def strStarts (s pre : String) : Bool := csStarts s.toList pre.toList

/-- Python `str.split(sep)` for a one-character separator. -/
def csSplitOn (c : Char) : List Char → List (List Char)
  | [] => [[]]
  | a :: as =>
    match csSplitOn c as with
    | [] => [[]]
    | g :: gs => if a == c then [] :: g :: gs else (a :: g) :: gs

/-- Python `sep.join(parts)` for a one-character separator. -/
def csJoinSep (c : Char) : List (List Char) → List Char
  | [] => []
  | [g] => g
  | g :: g' :: gs => g ++ c :: csJoinSep c (g' :: gs)

/-- Characters permitted in a URL scheme after the initial letter. -/
def isSchemeChar (ch : Char) : Bool := ch.isAlphanum || ch == '+' || ch == '-' || ch == '.'

/-- Drop a leading `scheme:` when the text before the first colon is a
valid scheme (letter followed by scheme characters), as `urlparse` does. -/
def dropScheme (cs : List Char) : List Char :=
  match cs.findIdx? (· == ':') with
  | none => cs
  | some i =>
    match cs.take i with
    | [] => cs
    | c :: rest =>
      if c.isAlpha && (c :: rest).all isSchemeChar then cs.drop (i + 1) else cs

/-- Split off everything before the first occurrence of `c` (the delimiter
is consumed; an absent delimiter leaves the second component empty). -/
def splitOnFirst (c : Char) (cs : List Char) : List Char × List Char :=
  match cs.findIdx? (· == c) with
  | none => (cs, [])
  | some i => (cs.take i, cs.drop (i + 1))

structure UrlParts where
  path : List Char
  query : List Char
deriving DecidableEq, Repr

/-- Embedding of `urllib.parse.urlparse`, restricted to the `path` and `query`
components the code reads. -/
def urlparse (url : String) : UrlParts :=
  let cs := dropScheme url.toList
  let cs := if cs.take 2 = ['/', '/']
            then (cs.drop 2).dropWhile (fun ch => ch ≠ '/' && ch ≠ '?' && ch ≠ '#')
            else cs
  let p1 := splitOnFirst '#' cs
  let p2 := splitOnFirst '?' p1.1
  ⟨p2.1, p2.2⟩

/-- Python `path.strip("/")`. -/
def stripSlash (cs : List Char) : List Char :=
  ((cs.dropWhile (· == '/')).reverse.dropWhile (· == '/')).reverse

/-- The `(u.path or "").strip("/")` value the classifier works on. -/
def strippedPath (url : String) : List Char := stripSlash (urlparse url).path

/-- A `\w` or `-` character (`\w` taken as ASCII word characters; channel
ids are ASCII). -/
def isWordOrDash (ch : Char) : Bool := ch.isAlphanum || ch == '_' || ch == '-'

/-- The regex `^channel/(UC[\w-]{20,})$` applied to the stripped path;
returns the captured group. -/
def matchChannelPath (p : List Char) : Option String :=
  if csStarts p ("channel/".toList) then
    let rest := p.drop 8
    if csStarts rest ("UC".toList) && decide (20 ≤ (rest.drop 2).length)
        && (rest.drop 2).all isWordOrDash
    then some (String.mk rest) else none
  else none

/-- The regexes `^user/([^/]+)$` and `^c/([^/]+)$` (parameterised by the
literal part); returns the captured group. -/
def matchSegPath (pre : String) (p : List Char) : Option String :=
  if csStarts p pre.toList then
    let rest := p.drop pre.toList.length
    if !rest.isEmpty && rest.all (· ≠ '/') then some (String.mk rest) else none
  else none

/-- First retained value of `parse_qs(query)[key]`: pairs split on `&`
then on the first `=`; pairs without `=` or with an empty value are
dropped (`keep_blank_values=False`). -/
def parseQsFirst (query : List Char) (key : String) : Option String :=
  (csSplitOn '&' query).findSome? fun part =>
    match csSplitOn '=' part with
    | [] => none
    | [_] => none
    | k :: rest =>
      if k = key.toList then
        let v := csJoinSep '=' rest
        if !v.isEmpty then some (String.mk v) else none
      else none

inductive RefKind where
  | channel_id
  | handle
  | username
  | custom
  | guess
deriving DecidableEq, Repr

/-- Embedding of `extract_from_url` (analytics.py:100-127). -/
def extract_from_url (url : String) : RefKind × String :=
  if strStarts url "@" then (RefKind.handle, url)
  else
    let path := strippedPath url
    match matchChannelPath path with
    | some cid => (RefKind.channel_id, cid)
    | none =>
      if csStarts path ['@'] then
        (RefKind.handle, String.mk ((csSplitOn '/' path).headD []))
      else
        match matchSegPath "user/" path with
        | some name => (RefKind.username, name)
        | none =>
          match matchSegPath "c/" path with
          | some name => (RefKind.custom, name)
          | none =>
            if !path.isEmpty then
              let seg := (csSplitOn '/' path).headD []
              if csStarts seg ['@'] then (RefKind.handle, String.mk seg)
              else (RefKind.custom, String.mk seg)
            else
              match parseQsFirst (urlparse url).query "channel" with
              | some val =>
                if strStarts val "UC" then (RefKind.channel_id, val)
                else (RefKind.guess, url)
              | none => (RefKind.guess, url)

/-! Remote data model.  Items carry exactly the fields the code reads;
`publishedAt` is the parsed instant (seconds); `likeCount`/`commentCount`
are `None` when the field is absent or `int()` fails (`safe_int`),
`viewCount`/`commentCount` likewise in `fetch_video_stats`. -/

/-- One `videos.list` item as consumed by `members_averages`. -/
structure Video where
  publishedAt : Option Int
  likeCount : Option Int
  commentCount : Option Int
deriving DecidableEq, Repr

/-- One `videos.list(part="statistics")` item as consumed by
`fetch_video_stats`. -/
structure VStat where
  view : Option Int
  comment : Option Int
deriving DecidableEq, Repr

/-- One `search.list` page: the (possibly absent) `videoId` of each item,
and whether a `nextPageToken` was returned. -/
structure SPage where
  videoIds : List (Option String)
  nextTok : Bool
deriving DecidableEq, Repr

/-- One `playlistItems.list` item (`contentDetails.videoId`). -/
structure PlItem where
  videoId : Option String
deriving DecidableEq, Repr

/-- One `playlistItems.list` page. -/
structure PlPage where
  items : List PlItem
  nextTok : Bool
deriving DecidableEq, Repr

/-- The remote API together with the credential pool size and the clock:
every oracle takes the key index the request is executed with, so quota
behaviour may differ per credential.  For the two paginated endpoints the
opaque cursor is modelled by the page number it leads to. -/
structure Env where
  nkeys : Nat
  handleRes : String → Nat → Res (Option String)
  userRes : String → Nat → Res (Option String)
  searchRes : String → Nat → Res (Option String)
  chanInfo : String → Nat → Res (Option (String × Option Int))
  searchPage : String → Nat → Nat → Res SPage
  videoStats : List String → Nat → Res (List VStat)
  plPage : String → Nat → Nat → Res PlPage
  vidDetails : List String → Nat → Res (List Video)
  now : Int

/-- A remote lookup issued by the resolver, with the key index used. -/
inductive Call where
  | handleL (h : String) (key : Nat)
  | userL (u : String) (key : Nat)
  | searchL (q : String) (key : Nat)
deriving DecidableEq, Repr

/-- The lookup request of a call, forgetting which key executed it. -/
inductive LookupReq where
  | handleL (h : String)
  | userL (u : String)
  | searchL (q : String)
deriving DecidableEq, Repr

def Call.req : Call → LookupReq
  | .handleL h _ => .handleL h
  | .userL u _ => .userL u
  | .searchL q _ => .searchL q

/-- Mutable process state touched by the resolver: the `_chid_cache` dict
(latest binding first) and the rotator index. -/
structure RState where
  cache : List (String × Option String)
  idx : Nat
deriving DecidableEq, Repr

/-- Lookup `url in _chid_cache` / `_chid_cache[url]` (first — most recent —
binding wins, like a dict whose entry is overwritten). -/
def cacheLookup (cache : List (String × Option String)) (url : String) : Option (Option String) :=
  (cache.find? (fun e => e.1 = url)).map (fun e => e.2)

/-- Normal or exceptional completion of `resolve_channel_id`: quota and
other `HttpError`s raised by the lookup are caught inside (analytics.py:
151-152), so only a non-`HttpError` exception escapes. -/
inductive ResolveOut where
  | res (chid : Option String)
  | exc
deriving DecidableEq, Repr

/-- Embedding of `resolve_channel_id` (analytics.py:129-155).  Returns the outcome, the
updated state, and the remote calls issued, in order.  The cache is
written on every path except a non-`HttpError` exception (the assignment
on line 154 is after the `try`/`except HttpError` block). -/
def resolve_channel_id (env : Env) (st : RState) (url : String) :
    ResolveOut × RState × List Call :=
  match cacheLookup st.cache url with
  | some v => (ResolveOut.res v, st, [])
  | none =>
    let kv := extract_from_url url
    match kv.1 with
    | RefKind.channel_id =>
      (ResolveOut.res (some kv.2), ⟨(url, some kv.2) :: st.cache, st.idx⟩, [])
    | RefKind.handle =>
      let h := if strStarts kv.2 "@" then kv.2 else "@" ++ kv.2
      let r := with_quota_rotation (fun k => env.handleRes h k) env.nkeys st.idx
      (match r.1 with
       | Res.ok v => (ResolveOut.res v, ⟨(url, v) :: st.cache, r.2.1⟩, r.2.2.map (Call.handleL h))
       | Res.exc => (ResolveOut.exc, ⟨st.cache, r.2.1⟩, r.2.2.map (Call.handleL h))
       | _ => (ResolveOut.res none, ⟨(url, none) :: st.cache, r.2.1⟩, r.2.2.map (Call.handleL h)))
    | RefKind.username =>
      let r := with_quota_rotation (fun k => env.userRes kv.2 k) env.nkeys st.idx
      (match r.1 with
       | Res.ok v => (ResolveOut.res v, ⟨(url, v) :: st.cache, r.2.1⟩, r.2.2.map (Call.userL kv.2))
       | Res.exc => (ResolveOut.exc, ⟨st.cache, r.2.1⟩, r.2.2.map (Call.userL kv.2))
       | _ => (ResolveOut.res none, ⟨(url, none) :: st.cache, r.2.1⟩, r.2.2.map (Call.userL kv.2)))
    | _ =>
      let r := with_quota_rotation (fun k => env.searchRes kv.2 k) env.nkeys st.idx
      (match r.1 with
       | Res.ok v => (ResolveOut.res v, ⟨(url, v) :: st.cache, r.2.1⟩, r.2.2.map (Call.searchL kv.2))
       | Res.exc => (ResolveOut.exc, ⟨st.cache, r.2.1⟩, r.2.2.map (Call.searchL kv.2))
       | _ =>
         (ResolveOut.res none, ⟨(url, none) :: st.cache, r.2.1⟩, r.2.2.map (Call.searchL kv.2)))

theorem cacheLookup_cons_self (cache : List (String × Option String)) (url : String)
    (v : Option String) : cacheLookup ((url, v) :: cache) url = some v := by
  simp [cacheLookup, List.find?]

/-- C6: classification follows the strict priority order — a reference
starting with `@` is a handle before anything else; otherwise the
canonical-ID pattern `channel/UC…` is tried first, then the path-handle
pattern, then the `user/` pattern, then the `c/` vanity pattern, and the
free-text `guess` fallback is reached only when every pattern failed and
the path is empty; a canonical-ID-shaped reference resolves to the
captured ID with no remote call at all, and an uncached handle-shaped
reference issues exactly one handle-lookup call. -/
theorem resolver_priority_order (url cid name : String) (env : Env) (st : RState) :
    (strStarts url "@" = true → extract_from_url url = (RefKind.handle, url)) ∧
    (strStarts url "@" = false → matchChannelPath (strippedPath url) = some cid →
      extract_from_url url = (RefKind.channel_id, cid)) ∧
    (strStarts url "@" = false → matchChannelPath (strippedPath url) = none →
      csStarts (strippedPath url) ['@'] = false →
      matchSegPath "user/" (strippedPath url) = some name →
      extract_from_url url = (RefKind.username, name)) ∧
    (strStarts url "@" = false → matchChannelPath (strippedPath url) = none →
      csStarts (strippedPath url) ['@'] = false →
      matchSegPath "user/" (strippedPath url) = none →
      matchSegPath "c/" (strippedPath url) = some name →
      extract_from_url url = (RefKind.custom, name)) ∧
    ((extract_from_url url).1 = RefKind.guess →
      strStarts url "@" = false ∧ matchChannelPath (strippedPath url) = none ∧
      csStarts (strippedPath url) ['@'] = false ∧
      matchSegPath "user/" (strippedPath url) = none ∧
      matchSegPath "c/" (strippedPath url) = none ∧ strippedPath url = []) ∧
    (extract_from_url url = (RefKind.channel_id, cid) → cacheLookup st.cache url = none →
      resolve_channel_id env st url =
        (ResolveOut.res (some cid), ⟨(url, some cid) :: st.cache, st.idx⟩, [])) ∧
    (strStarts url "@" = true → cacheLookup st.cache url = none → st.idx < env.nkeys →
      env.handleRes url st.idx ≠ Res.quotaErr →
      (resolve_channel_id env st url).2.2 = [Call.handleL url st.idx]) := by
  refine ⟨?_, ?_, ?_, ?_, ?_, ?_, ?_⟩
  · intro h1
    simp [extract_from_url, h1]
  · intro h1 h2
    simp [extract_from_url, h1, h2]
  · intro h1 h2 h3 h4
    simp [extract_from_url, h1, h2, h3, h4]
  · intro h1 h2 h3 h4 h5
    simp [extract_from_url, h1, h2, h3, h4, h5]
  · intro hg
    by_cases h1 : strStarts url "@" = true
    · simp [extract_from_url, h1] at hg
    have h1' : strStarts url "@" = false := by simpa using h1
    cases h2 : matchChannelPath (strippedPath url) with
    | some c => simp [extract_from_url, h1', h2] at hg
    | none =>
    by_cases h3 : csStarts (strippedPath url) ['@'] = true
    · simp [extract_from_url, h1', h2, h3] at hg
    have h3' : csStarts (strippedPath url) ['@'] = false := by simpa using h3
    cases h4 : matchSegPath "user/" (strippedPath url) with
    | some nm => simp [extract_from_url, h1', h2, h3', h4] at hg
    | none =>
    cases h5 : matchSegPath "c/" (strippedPath url) with
    | some nm => simp [extract_from_url, h1', h2, h3', h4, h5] at hg
    | none =>
    by_cases h6 : (strippedPath url).isEmpty = true
    · exact ⟨h1', rfl, h3', rfl, rfl, List.isEmpty_iff.mp h6⟩
    · exfalso
      have h6' : (strippedPath url).isEmpty = false := by simpa using h6
      by_cases h7 : csStarts ((csSplitOn '/' (strippedPath url)).head?.getD []) ['@'] = true
      · simp [extract_from_url, h1', h2, h3', h4, h5, h6', h7] at hg
      · have h7' : csStarts ((csSplitOn '/' (strippedPath url)).head?.getD []) ['@'] = false := by
          simpa using h7
        simp [extract_from_url, h1', h2, h3', h4, h5, h6', h7'] at hg
  · intro hex hcache
    simp [resolve_channel_id, hcache, hex]
  · intro h1 hcache hik hnq
    have hex : extract_from_url url = (RefKind.handle, url) := by
      simp [extract_from_url, h1]
    have hrot := with_quota_rotation_no_quota (fun k => env.handleRes url k) env.nkeys st.idx
      hik hnq
    cases henv : env.handleRes url st.idx with
    | quotaErr => exact absurd henv hnq
    | ok v => simp [resolve_channel_id, hcache, hex, h1, hrot, henv]
    | httpErr => simp [resolve_channel_id, hcache, hex, h1, hrot, henv]
    | exc => simp [resolve_channel_id, hcache, hex, h1, hrot, henv]

theorem resolver_priority_order_witness :
    extract_from_url "https://www.youtube.com/channel/UC0123456789_abcdefghi" =
      (RefKind.channel_id, "UC0123456789_abcdefghi") ∧
    extract_from_url "@somehandle" = (RefKind.handle, "@somehandle") ∧
    (∀ env : Env, ∀ st : RState, st.cache = [] → st.idx = 0 → env.nkeys = 1 →
      env.handleRes "@somehandle" 0 = Res.ok (some "UCfound") →
      resolve_channel_id env st "https://www.youtube.com/channel/UC0123456789_abcdefghi" =
        (ResolveOut.res (some "UC0123456789_abcdefghi"),
         ⟨[("https://www.youtube.com/channel/UC0123456789_abcdefghi",
            some "UC0123456789_abcdefghi")], 0⟩, []) ∧
      (resolve_channel_id env st "@somehandle").2.2 = [Call.handleL "@somehandle" 0]) := by
  refine ⟨?_, ?_, ?_⟩
  · exact (resolver_priority_order "https://www.youtube.com/channel/UC0123456789_abcdefghi"
      "UC0123456789_abcdefghi" "" ⟨1, fun _ _ => Res.exc, fun _ _ => Res.exc, fun _ _ => Res.exc,
        fun _ _ => Res.exc, fun _ _ _ => Res.exc, fun _ _ => Res.exc, fun _ _ _ => Res.exc,
        fun _ _ => Res.exc, 0⟩ ⟨[], 0⟩).2.1 (by decide) (by decide)
  · exact (resolver_priority_order "@somehandle" "" "" ⟨1, fun _ _ => Res.exc,
      fun _ _ => Res.exc, fun _ _ => Res.exc, fun _ _ => Res.exc, fun _ _ _ => Res.exc,
      fun _ _ => Res.exc, fun _ _ _ => Res.exc, fun _ _ => Res.exc, 0⟩ ⟨[], 0⟩).1 (by decide)
  · intro env st hcache hidx hn henv
    obtain ⟨c0, i0⟩ := st
    simp only at hcache hidx
    subst hcache hidx
    constructor
    · have h := (resolver_priority_order
        "https://www.youtube.com/channel/UC0123456789_abcdefghi" "UC0123456789_abcdefghi" ""
        env ⟨[], 0⟩).2.2.2.2.2.1
      exact h (by decide) (by simp [cacheLookup])
    · have h := (resolver_priority_order "@somehandle" "" "" env ⟨[], 0⟩).2.2.2.2.2.2
      exact h (by decide) (by simp [cacheLookup]) (by simp [hn])
        (by rw [henv]; intro hcon; cases hcon)

/-- C7: resolving the same raw reference twice returns the same outcome,
leaves the state unchanged on the second call, issues no remote call the
second time (success and failure are both cached under the raw string),
and across both resolutions at most one distinct lookup request is ever
issued (rotation may re-execute that one request with other keys). -/
theorem resolution_cached_second_lookup_free (env : Env) (st : RState) (url : String)
    (hexc : (resolve_channel_id env st url).1 ≠ ResolveOut.exc) :
    resolve_channel_id env (resolve_channel_id env st url).2.1 url =
      ((resolve_channel_id env st url).1, (resolve_channel_id env st url).2.1, []) ∧
    (∀ c1 ∈ (resolve_channel_id env st url).2.2, ∀ c2 ∈ (resolve_channel_id env st url).2.2,
      Call.req c1 = Call.req c2) := by
  cases hcache : cacheLookup st.cache url with
  | some v =>
    constructor
    · simp [resolve_channel_id, hcache]
    · simp [resolve_channel_id, hcache]
  | none =>
    rcases hex : extract_from_url url with ⟨kind, value⟩
    cases kind with
    | channel_id =>
      constructor
      · simp [resolve_channel_id, hcache, hex, cacheLookup_cons_self]
      · simp [resolve_channel_id, hcache, hex]
    | handle =>
      rcases hrot : with_quota_rotation
          (fun k => env.handleRes (if strStarts value "@" then value else "@" ++ value) k)
          env.nkeys st.idx with ⟨r1, ri, rvs⟩
      cases r1 with
      | exc =>
        exfalso
        apply hexc
        simp [resolve_channel_id, hcache, hex, hrot]
      | ok v =>
        constructor
        · simp [resolve_channel_id, hcache, hex, hrot, cacheLookup_cons_self]
        · simp only [resolve_channel_id, hcache, hex, hrot]
          intro c1 hc1 c2 hc2
          simp only [List.mem_map] at hc1 hc2
          obtain ⟨k1, _, rfl⟩ := hc1
          obtain ⟨k2, _, rfl⟩ := hc2
          rfl
      | quotaErr =>
        constructor
        · simp [resolve_channel_id, hcache, hex, hrot, cacheLookup_cons_self]
        · simp only [resolve_channel_id, hcache, hex, hrot]
          intro c1 hc1 c2 hc2
          simp only [List.mem_map] at hc1 hc2
          obtain ⟨k1, _, rfl⟩ := hc1
          obtain ⟨k2, _, rfl⟩ := hc2
          rfl
      | httpErr =>
        constructor
        · simp [resolve_channel_id, hcache, hex, hrot, cacheLookup_cons_self]
        · simp only [resolve_channel_id, hcache, hex, hrot]
          intro c1 hc1 c2 hc2
          simp only [List.mem_map] at hc1 hc2
          obtain ⟨k1, _, rfl⟩ := hc1
          obtain ⟨k2, _, rfl⟩ := hc2
          rfl
    | username =>
      rcases hrot : with_quota_rotation (fun k => env.userRes value k) env.nkeys st.idx
        with ⟨r1, ri, rvs⟩
      cases r1 with
      | exc =>
        exfalso
        apply hexc
        simp [resolve_channel_id, hcache, hex, hrot]
      | ok v =>
        constructor
        · simp [resolve_channel_id, hcache, hex, hrot, cacheLookup_cons_self]
        · simp only [resolve_channel_id, hcache, hex, hrot]
          intro c1 hc1 c2 hc2
          simp only [List.mem_map] at hc1 hc2
          obtain ⟨k1, _, rfl⟩ := hc1
          obtain ⟨k2, _, rfl⟩ := hc2
          rfl
      | quotaErr =>
        constructor
        · simp [resolve_channel_id, hcache, hex, hrot, cacheLookup_cons_self]
        · simp only [resolve_channel_id, hcache, hex, hrot]
          intro c1 hc1 c2 hc2
          simp only [List.mem_map] at hc1 hc2
          obtain ⟨k1, _, rfl⟩ := hc1
          obtain ⟨k2, _, rfl⟩ := hc2
          rfl
      | httpErr =>
        constructor
        · simp [resolve_channel_id, hcache, hex, hrot, cacheLookup_cons_self]
        · simp only [resolve_channel_id, hcache, hex, hrot]
          intro c1 hc1 c2 hc2
          simp only [List.mem_map] at hc1 hc2
          obtain ⟨k1, _, rfl⟩ := hc1
          obtain ⟨k2, _, rfl⟩ := hc2
          rfl
    | custom =>
      rcases hrot : with_quota_rotation (fun k => env.searchRes value k) env.nkeys st.idx
        with ⟨r1, ri, rvs⟩
      cases r1 with
      | exc =>
        exfalso
        apply hexc
        simp [resolve_channel_id, hcache, hex, hrot]
      | ok v =>
        constructor
        · simp [resolve_channel_id, hcache, hex, hrot, cacheLookup_cons_self]
        · simp only [resolve_channel_id, hcache, hex, hrot]
          intro c1 hc1 c2 hc2
          simp only [List.mem_map] at hc1 hc2
          obtain ⟨k1, _, rfl⟩ := hc1
          obtain ⟨k2, _, rfl⟩ := hc2
          rfl
      | quotaErr =>
        constructor
        · simp [resolve_channel_id, hcache, hex, hrot, cacheLookup_cons_self]
        · simp only [resolve_channel_id, hcache, hex, hrot]
          intro c1 hc1 c2 hc2
          simp only [List.mem_map] at hc1 hc2
          obtain ⟨k1, _, rfl⟩ := hc1
          obtain ⟨k2, _, rfl⟩ := hc2
          rfl
      | httpErr =>
        constructor
        · simp [resolve_channel_id, hcache, hex, hrot, cacheLookup_cons_self]
        · simp only [resolve_channel_id, hcache, hex, hrot]
          intro c1 hc1 c2 hc2
          simp only [List.mem_map] at hc1 hc2
          obtain ⟨k1, _, rfl⟩ := hc1
          obtain ⟨k2, _, rfl⟩ := hc2
          rfl
    | guess =>
      rcases hrot : with_quota_rotation (fun k => env.searchRes value k) env.nkeys st.idx
        with ⟨r1, ri, rvs⟩
      cases r1 with
      | exc =>
        exfalso
        apply hexc
        simp [resolve_channel_id, hcache, hex, hrot]
      | ok v =>
        constructor
        · simp [resolve_channel_id, hcache, hex, hrot, cacheLookup_cons_self]
        · simp only [resolve_channel_id, hcache, hex, hrot]
          intro c1 hc1 c2 hc2
          simp only [List.mem_map] at hc1 hc2
          obtain ⟨k1, _, rfl⟩ := hc1
          obtain ⟨k2, _, rfl⟩ := hc2
          rfl
      | quotaErr =>
        constructor
        · simp [resolve_channel_id, hcache, hex, hrot, cacheLookup_cons_self]
        · simp only [resolve_channel_id, hcache, hex, hrot]
          intro c1 hc1 c2 hc2
          simp only [List.mem_map] at hc1 hc2
          obtain ⟨k1, _, rfl⟩ := hc1
          obtain ⟨k2, _, rfl⟩ := hc2
          rfl
      | httpErr =>
        constructor
        · simp [resolve_channel_id, hcache, hex, hrot, cacheLookup_cons_self]
        · simp only [resolve_channel_id, hcache, hex, hrot]
          intro c1 hc1 c2 hc2
          simp only [List.mem_map] at hc1 hc2
          obtain ⟨k1, _, rfl⟩ := hc1
          obtain ⟨k2, _, rfl⟩ := hc2
          rfl

/-- Environment whose handle lookup succeeds at every key (used by the C7
witness). -/
def handleOkEnv : Env :=
  ⟨1, fun _ _ => Res.ok (some "UCfromhandle"), fun _ _ => Res.exc, fun _ _ => Res.exc,
   fun _ _ => Res.exc, fun _ _ _ => Res.exc, fun _ _ => Res.exc, fun _ _ _ => Res.exc,
   fun _ _ => Res.exc, 0⟩

theorem resolution_cached_second_lookup_free_witness :
    resolve_channel_id handleOkEnv (resolve_channel_id handleOkEnv ⟨[], 0⟩ "@w").2.1 "@w" =
      ((resolve_channel_id handleOkEnv ⟨[], 0⟩ "@w").1,
       (resolve_channel_id handleOkEnv ⟨[], 0⟩ "@w").2.1, []) ∧
    (∀ c1 ∈ (resolve_channel_id handleOkEnv ⟨[], 0⟩ "@w").2.2,
     ∀ c2 ∈ (resolve_channel_id handleOkEnv ⟨[], 0⟩ "@w").2.2, Call.req c1 = Call.req c2) :=
  resolution_cached_second_lookup_free handleOkEnv ⟨[], 0⟩ "@w" (by decide)

/-! Pagination (C4).  The opaque `nextPageToken` cursor is modelled by the
number of the page it leads to: the oracle is consulted at pages
`0, 1, 2, ...` and each page says whether a continuation token was
present.  A loop that is still running after its fuel is exhausted is the
`none` outcome — the fuel is a bound on observed pages, not a feature of
the code. -/

/-- Loop body of `list_video_ids_in_period` (analytics.py:169-191).
Arguments: fuel, page number, `pages` counter, rotator index, `ids`
accumulator.  Returns (result, rotator index, pages fetched).  The loop
breaks when no `nextPageToken` is returned or `pages >= max_pages`, both
checked after the page is consumed; an error raised by
`with_quota_rotation` propagates.  Fuel `maxPages + 1` is always enough
because `pages` grows by one per iteration and the loop stops at
`maxPages`. -/
def listVidsAux (env : Env) (ch : String) (maxPages : Nat) :
    Nat → Nat → Nat → Nat → List String → Res (List String) × Nat × Nat
  | 0, _, p, i, acc => (Res.ok acc, i, p)
  | fuel + 1, pageNo, p, i, acc =>
    match with_quota_rotation (fun k => env.searchPage ch pageNo k) env.nkeys i with
    | (Res.ok pg, i', _) =>
      let acc' := acc ++ pg.videoIds.filterMap id
      let p' := p + 1
      if pg.nextTok = false ∨ maxPages ≤ p' then (Res.ok acc', i', p')
      else listVidsAux env ch maxPages fuel (pageNo + 1) p' i' acc'
    | (e, i', _) => (e.castErr, i', p)

/-- Embedding of `list_video_ids_in_period` (analytics.py:169-191); `max_pages`
defaults to 50 at the call site. -/
def list_video_ids_in_period (env : Env) (ch : String) (i : Nat) (maxPages : Nat) :
    Res (List String) × Nat × Nat :=
  listVidsAux env ch maxPages (maxPages + 1) 0 0 i []

/-- Loop body of `fetch_playlist_items` (analytics.py:217-231).  The loop
has no page cap: it stops only when no `nextPageToken` is returned (or an
error propagates).  `none` means the loop was still running after `fuel`
pages. -/
def fetchPlAux (env : Env) (pl : String) :
    Nat → Nat → Nat → List PlItem → Option (Res (List PlItem) × Nat)
  | 0, _, _, _ => none
  | fuel + 1, pageNo, i, acc =>
    match with_quota_rotation (fun k => env.plPage pl pageNo k) env.nkeys i with
    | (Res.ok pg, i', _) =>
      let acc' := acc ++ pg.items
      if pg.nextTok then fetchPlAux env pl fuel (pageNo + 1) i' acc'
      else some (Res.ok acc', i')
    | (e, i', _) => some (e.castErr, i')

/-- Embedding of `fetch_playlist_items` (analytics.py:217-231), observed for at most
`fuel` pages. -/
def fetch_playlist_items (env : Env) (pl : String) (i : Nat) (fuel : Nat) :
    Option (Res (List PlItem) × Nat) :=
  fetchPlAux env pl fuel 0 i []

/-- The `pages` counter of the search loop never exceeds
`max (p + 1) maxPages` when it starts at `p`. -/
theorem listVidsAux_pages_le (env : Env) (ch : String) (maxPages : Nat) :
    ∀ fuel pageNo p i acc,
      (listVidsAux env ch maxPages fuel pageNo p i acc).2.2 ≤ max (p + 1) maxPages := by
  intro fuel
  induction fuel with
  | zero =>
    intro pageNo p i acc
    exact Nat.le_trans (Nat.le_succ p) (Nat.le_max_left (p + 1) maxPages)
  | succ fuel ih =>
    intro pageNo p i acc
    simp only [listVidsAux]
    rcases hrot : with_quota_rotation (fun k => env.searchPage ch pageNo k) env.nkeys i
      with ⟨r1, i', vs⟩
    cases r1 with
    | ok pg =>
      simp only [hrot]
      by_cases hstop : pg.nextTok = false ∨ maxPages ≤ p + 1
      · rw [if_pos hstop]
        exact Nat.le_max_left (p + 1) maxPages
      · rw [if_neg hstop]
        have hih := ih (pageNo + 1) (p + 1) i' (acc ++ pg.videoIds.filterMap id)
        have hlt : ¬ maxPages ≤ p + 1 := fun hcon => hstop (Or.inr hcon)
        omega
    | quotaErr =>
      simp only [hrot]
      exact Nat.le_trans (Nat.le_succ p) (Nat.le_max_left (p + 1) maxPages)
    | httpErr =>
      simp only [hrot]
      exact Nat.le_trans (Nat.le_succ p) (Nat.le_max_left (p + 1) maxPages)
    | exc =>
      simp only [hrot]
      exact Nat.le_trans (Nat.le_succ p) (Nat.le_max_left (p + 1) maxPages)

/-- With an error-free oracle that always returns a continuation token,
the search loop runs to the cap exactly: `pages = maxPages`, result `ok`
(silent truncation, no error). -/
theorem listVidsAux_cap (env : Env) (ch : String) (maxPages : Nat)
    (herr : ∀ pageNo k, ∃ pg, env.searchPage ch pageNo k = Res.ok pg ∧ pg.nextTok = true) :
    ∀ fuel pageNo p i acc, i < env.nkeys → p < maxPages → maxPages ≤ fuel + p →
      (listVidsAux env ch maxPages fuel pageNo p i acc).2.2 = maxPages ∧
      (∃ out, (listVidsAux env ch maxPages fuel pageNo p i acc).1 = Res.ok out) ∧
      (listVidsAux env ch maxPages fuel pageNo p i acc).2.1 = i := by
  intro fuel
  induction fuel with
  | zero => intro pageNo p i acc hi hp hf; omega
  | succ fuel ih =>
    intro pageNo p i acc hi hp hf
    obtain ⟨pg, hpg, htok⟩ := herr pageNo i
    have hrot : with_quota_rotation (fun k => env.searchPage ch pageNo k) env.nkeys i =
        (Res.ok pg, i, [i]) := by
      rw [with_quota_rotation_no_quota _ _ _ hi (by simp [hpg])]
      simp [hpg]
    simp only [listVidsAux, hrot]
    by_cases hstop : pg.nextTok = false ∨ maxPages ≤ p + 1
    · rcases hstop with hc | hc
      · rw [hc] at htok; cases htok
      · have hpm : p + 1 = maxPages := by omega
        rw [if_pos (Or.inr hc)]
        exact ⟨hpm, ⟨_, rfl⟩, rfl⟩
    · rw [if_neg hstop]
      exact ih (pageNo + 1) (p + 1) i (acc ++ pg.videoIds.filterMap id) hi (by omega) (by omega)

/-- With an error-free deterministic oracle whose page `K` (relative to
the starting page) carries no continuation token, the playlist loop
terminates as soon as that page is consumed, for any fuel `> K`. -/
theorem fetchPlAux_terminates (env : Env) (pl : String) (pg : Nat → PlPage)
    (herr : ∀ pageNo k, env.plPage pl pageNo k = Res.ok (pg pageNo)) :
    ∀ K fuel pageNo i acc, i < env.nkeys → (pg (pageNo + K)).nextTok = false → K < fuel →
      (fetchPlAux env pl fuel pageNo i acc).isSome = true := by
  intro K
  induction K with
  | zero =>
    intro fuel pageNo i acc hi htok hK
    obtain ⟨f, rfl⟩ : ∃ f, fuel = f + 1 := ⟨fuel - 1, by omega⟩
    have hrot : with_quota_rotation (fun k => env.plPage pl pageNo k) env.nkeys i =
        (Res.ok (pg pageNo), i, [i]) := by
      rw [with_quota_rotation_no_quota _ _ _ hi (by simp [herr])]
      simp [herr]
    simp only [fetchPlAux, hrot]
    rw [Nat.add_zero] at htok
    rw [htok]
    simp
  | succ K ih =>
    intro fuel pageNo i acc hi htok hK
    obtain ⟨f, rfl⟩ : ∃ f, fuel = f + 1 := ⟨fuel - 1, by omega⟩
    have hrot : with_quota_rotation (fun k => env.plPage pl pageNo k) env.nkeys i =
        (Res.ok (pg pageNo), i, [i]) := by
      rw [with_quota_rotation_no_quota _ _ _ hi (by simp [herr])]
      simp [herr]
    simp only [fetchPlAux, hrot]
    cases htok2 : (pg pageNo).nextTok with
    | false => simp [htok2]
    | true =>
      simp only [htok2, if_pos rfl]
      exact ih f (pageNo + 1) i (acc ++ (pg pageNo).items) hi
        (by rw [show pageNo + 1 + K = pageNo + (K + 1) from by omega]; exact htok) (by omega)

/-- C4 (amended): the search-listing loop is bounded — it fetches at most
`max_pages` pages, and an oracle that keeps returning a continuation token
makes it stop exactly at the cap with an `ok` result (silent truncation,
not an error) — while the playlist loop has no page cap at all: it
terminates only once a page arrives without a continuation token. -/
theorem pagination_termination_bounds (env : Env) (ch pl : String) (i : Nat)
    (maxPages : Nat) (pg : Nat → PlPage) :
    ((list_video_ids_in_period env ch i maxPages).2.2 ≤ max 1 maxPages) ∧
    ((∀ pageNo k, ∃ spg, env.searchPage ch pageNo k = Res.ok spg ∧ spg.nextTok = true) →
      i < env.nkeys → 1 ≤ maxPages →
      (list_video_ids_in_period env ch i maxPages).2.2 = maxPages ∧
      ∃ out, (list_video_ids_in_period env ch i maxPages).1 = Res.ok out) ∧
    ((∀ pageNo k, env.plPage pl pageNo k = Res.ok (pg pageNo)) → i < env.nkeys →
      ∀ K fuel, (pg K).nextTok = false → K < fuel →
        (fetch_playlist_items env pl i fuel).isSome = true) := by
  refine ⟨?_, ?_, ?_⟩
  · have := listVidsAux_pages_le env ch maxPages (maxPages + 1) 0 0 i []
    simpa [list_video_ids_in_period] using this
  · intro herr hi hm
    have := listVidsAux_cap env ch maxPages herr (maxPages + 1) 0 0 i [] hi (by omega) (by omega)
    exact ⟨this.1, this.2.1⟩
  · intro herr hi K fuel htok hK
    exact fetchPlAux_terminates env pl pg herr K fuel 0 i [] hi (by simpa using htok) hK

/-- A single-key environment whose oracles all raise non-`HttpError`
exceptions; concrete environments below override the oracles they use. -/
def stubEnv : Env :=
  ⟨1, fun _ _ => Res.exc, fun _ _ => Res.exc, fun _ _ => Res.exc, fun _ _ => Res.exc,
   fun _ _ _ => Res.exc, fun _ _ => Res.exc, fun _ _ _ => Res.exc, fun _ _ => Res.exc, 0⟩

/-- Environment whose paginated endpoints always return a continuation
token (a misbehaving upstream that never ends). -/
def endlessPagesEnv : Env :=
  { stubEnv with
    searchPage := fun _ _ _ => Res.ok ⟨[], true⟩
    plPage := fun _ _ _ => Res.ok ⟨[], true⟩ }

/-- C4 counterexample: against an endpoint that always returns a
continuation token, `list_video_ids_in_period` stops at its `max_pages=50`
cap, but `fetch_playlist_items` is still running after 120 pages — the
page-count bound does not apply to every pagination loop in the program. -/
theorem playlist_loop_lacks_page_cap :
    list_video_ids_in_period endlessPagesEnv "CH" 0 50 = (Res.ok [], 0, 50) ∧
    fetch_playlist_items endlessPagesEnv "PL" 0 120 = none := by
  constructor
  · rfl
  · rfl

/-- Environment for the C4 witness: search pages never end, playlist page
0 carries no continuation token. -/
def cappedAndFiniteEnv : Env :=
  { stubEnv with
    searchPage := fun _ _ _ => Res.ok ⟨[some "v"], true⟩
    plPage := fun _ _ _ => Res.ok ⟨[⟨some "m"⟩], false⟩ }

theorem pagination_termination_bounds_witness :
    ((list_video_ids_in_period cappedAndFiniteEnv "CH" 0 50).2.2 ≤ max 1 50) ∧
    ((list_video_ids_in_period cappedAndFiniteEnv "CH" 0 50).2.2 = 50 ∧
      ∃ out, (list_video_ids_in_period cappedAndFiniteEnv "CH" 0 50).1 = Res.ok out) ∧
    (fetch_playlist_items cappedAndFiniteEnv "PL" 0 1).isSome = true := by
  have h := pagination_termination_bounds cappedAndFiniteEnv "CH" "PL" 0 50
    (fun _ => ⟨[⟨some "m"⟩], false⟩)
  refine ⟨h.1, h.2.1 (fun pageNo k => ⟨⟨[some "v"], true⟩, rfl, rfl⟩) (by decide) (by decide),
    h.2.2 (fun pageNo k => rfl) (by decide) 0 1 rfl (by decide)⟩

/-! Batch detail fetching: `fetch_videos_details` (analytics.py:233-244)
issues one `videos.list` per 50-id chunk through `with_quota_rotation` and
has no per-chunk recovery — an error raised by a chunk propagates;
`fetch_videos` (test.py:54-77) retries each chunk up to 4 attempts with
backoff and swallows a chunk that still fails. -/

/-- Chunk loop of `fetch_videos_details`.  Returns the result, the final
rotator index, and the chunks for which a remote call was issued, in
order. -/
def fetchVDGo (env : Env) : List (List String) → Nat → List Video →
    Res (List Video) × Nat × List (List String)
  | [], i, out => (Res.ok out, i, [])
  | b :: bs, i, out =>
    match with_quota_rotation (fun k => env.vidDetails b k) env.nkeys i with
    | (Res.ok items, i', _) =>
      let r := fetchVDGo env bs i' (out ++ items)
      (r.1, r.2.1, b :: r.2.2)
    | (e, i', _) => (e.castErr, i', [b])

/-- Embedding of `fetch_videos_details` (analytics.py:233-244). -/
def fetch_videos_details (env : Env) (ids : List String) (i : Nat) :
    Res (List Video) × Nat × List (List String) :=
  fetchVDGo env (chunked ids 50) i []

theorem fetchVDGo_ok (env : Env) (g : List String → List Video)
    (hok : ∀ b k, env.vidDetails b k = Res.ok (g b)) :
    ∀ bs i out, i < env.nkeys →
      fetchVDGo env bs i out = (Res.ok (out ++ (bs.map g).flatten), i, bs) := by
  intro bs
  induction bs with
  | nil => intro i out hi; simp [fetchVDGo]
  | cons b bs ih =>
    intro i out hi
    have hrot : with_quota_rotation (fun k => env.vidDetails b k) env.nkeys i =
        (Res.ok (g b), i, [i]) := by
      rw [with_quota_rotation_no_quota _ _ _ hi (by simp [hok])]
      simp [hok]
    simp only [fetchVDGo, hrot, ih i (out ++ g b) hi]
    simp

/-- C8: on an `N`-id list with batch size 50 and an error-free detail
endpoint, `fetch_videos_details` issues exactly one call per chunk —
`⌈N/50⌉` calls in total; the chunks are contiguous slices of the input in
input order whose concatenation is the input, every non-final chunk has
exactly 50 ids and the final one `N mod 50` ids (50 when `N` is a
multiple); and the concatenated result preserves chunk order globally. -/
theorem batch_fetcher_chunk_spec (env : Env) (g : List String → List Video)
    (ids : List String) (i : Nat)
    (hok : ∀ b k, env.vidDetails b k = Res.ok (g b)) (hi : i < env.nkeys) :
    fetch_videos_details env ids i =
      (Res.ok ((chunked ids 50).map g).flatten, i, chunked ids 50) ∧
    (chunked ids 50).length = (ids.length + 49) / 50 ∧
    (chunked ids 50).flatten = ids ∧
    (∀ c ∈ (chunked ids 50).dropLast, c.length = 50) ∧
    (∀ c, (chunked ids 50).getLast? = some c →
      c.length = if ids.length % 50 = 0 then 50 else ids.length % 50) := by
  refine ⟨?_, ?_, ?_, ?_, ?_⟩
  · rw [fetch_videos_details, fetchVDGo_ok env g hok (chunked ids 50) i [] hi]
    simp
  · exact chunked_length 50 (by omega) ids
  · exact chunked_flatten 50 (by omega) ids
  · exact chunked_dropLast_length 50 (by omega) ids
  · exact chunked_getLast_length 50 (by omega) ids

/-- Environment used by the C8 witness: every chunk returns one fixed
video. -/
def detailsOkEnv : Env :=
  { stubEnv with vidDetails := fun _ _ => Res.ok [⟨some 0, some 5, some 3⟩] }

theorem batch_fetcher_chunk_spec_witness :
    fetch_videos_details detailsOkEnv (List.replicate 120 "v") 0 =
      (Res.ok ((chunked (List.replicate 120 "v") 50).map
        (fun _ => [⟨some 0, some 5, some 3⟩])).flatten, 0,
       chunked (List.replicate 120 "v") 50) ∧
    (chunked (List.replicate 120 "v") 50).length =
      ((List.replicate 120 "v").length + 49) / 50 ∧
    (chunked (List.replicate 120 "v") 50).flatten = List.replicate 120 "v" ∧
    (∀ c ∈ (chunked (List.replicate 120 "v") 50).dropLast, c.length = 50) ∧
    (∀ c, (chunked (List.replicate 120 "v") 50).getLast? = some c →
      c.length = if (List.replicate 120 "v").length % 50 = 0 then 50
        else (List.replicate 120 "v").length % 50) :=
  batch_fetcher_chunk_spec detailsOkEnv (fun _ => [⟨some 0, some 5, some 3⟩])
    (List.replicate 120 "v") 0 (fun b k => rfl) (by decide)

/-- Retry loop for one chunk of `fetch_videos` (test.py:56-75): attempt
`t` is the `retries = t` execution; an `HttpError` increments `retries`
and the chunk is abandoned (contributing nothing) once `retries > 3`, so
at most 4 attempts run; a successful attempt contributes its items; a
non-`HttpError` exception propagates. -/
def chunkAttempt (att : Nat → Res (List Video)) : Nat → Nat → Res (List Video)
  | 0, _ => Res.ok []
  | fuel + 1, t =>
    match att t with
    | Res.ok xs => Res.ok xs
    | Res.exc => Res.exc
    | _ => chunkAttempt att fuel (t + 1)

/-- Chunk loop of `fetch_videos` (test.py:54-77): `att b t` is the result
of attempt `t` on chunk `b`. -/
def fetchVideosGo (att : List String → Nat → Res (List Video)) :
    List (List String) → List Video → Res (List Video)
  | [], out => Res.ok out
  | b :: bs, out =>
    match chunkAttempt (att b) 4 0 with
    | Res.ok xs => fetchVideosGo att bs (out ++ xs)
    | e => e.castErr

/-- Embedding of `fetch_videos` (test.py:54-77). -/
def fetch_videos (att : List String → Nat → Res (List Video)) (ids : List String) :
    Res (List Video) :=
  fetchVideosGo att (chunked ids 50) []

/-- The items a chunk contributes: those of the first successful attempt
among the 4, or nothing when every attempt failed. -/
def chunkVal (att : Nat → Res (List Video)) : List Video :=
  match chunkAttempt att 4 0 with
  | Res.ok xs => xs
  | _ => []

theorem chunkAttempt_no_exc (att : Nat → Res (List Video))
    (hnexc : ∀ t, att t ≠ Res.exc) :
    ∀ fuel t, chunkAttempt att fuel t = Res.ok (match chunkAttempt att fuel t with
      | Res.ok xs => xs
      | _ => []) := by
  intro fuel
  induction fuel with
  | zero => intro t; simp [chunkAttempt]
  | succ fuel ih =>
    intro t
    cases hat : att t with
    | ok xs => simp [chunkAttempt, hat]
    | exc => exact absurd hat (hnexc t)
    | quotaErr => simp only [chunkAttempt, hat]; exact ih (t + 1)
    | httpErr => simp only [chunkAttempt, hat]; exact ih (t + 1)

theorem chunkAttempt_all_fail (att : Nat → Res (List Video))
    (hfail : ∀ t, t ≤ 3 → att t = Res.quotaErr ∨ att t = Res.httpErr) :
    chunkAttempt att 4 0 = Res.ok [] := by
  have h0 := hfail 0 (by omega)
  have h1 := hfail 1 (by omega)
  have h2 := hfail 2 (by omega)
  have h3 := hfail 3 (by omega)
  rcases h0 with h0 | h0 <;> rcases h1 with h1 | h1 <;> rcases h2 with h2 | h2 <;>
    rcases h3 with h3 | h3 <;>
    simp [chunkAttempt, h0, h1, h2, h3]

theorem fetchVideosGo_ok (att : List String → Nat → Res (List Video))
    (hnexc : ∀ b t, att b t ≠ Res.exc) :
    ∀ bs out, fetchVideosGo att bs out = Res.ok (out ++ (bs.map (fun b => chunkVal (att b))).flatten) := by
  intro bs
  induction bs with
  | nil => intro out; simp [fetchVideosGo]
  | cons b bs ih =>
    intro out
    obtain ⟨xs, hxs⟩ : ∃ xs, chunkAttempt (att b) 4 0 = Res.ok xs :=
      ⟨_, chunkAttempt_no_exc (att b) (hnexc b) 4 0⟩
    have hval : chunkVal (att b) = xs := by rw [chunkVal, hxs]
    simp only [fetchVideosGo, hxs, ih, List.map_cons, List.flatten_cons, hval]
    rw [List.append_assoc]

/-- C5 (amended): in test.py's `fetch_videos` a chunk whose four attempts
all raise `HttpError`s contributes zero items, the remaining chunks are
still processed, and no error is propagated — the whole call returns `ok`
with the concatenation of the per-chunk contributions; in analytics.py's
`fetch_videos_details`, by contrast, there is no per-chunk recovery: the
claim fails there (see the counterexample). -/
theorem fetch_videos_failed_chunk_empty (att : List String → Nat → Res (List Video))
    (ids : List String) (hnexc : ∀ b t, att b t ≠ Res.exc) :
    fetch_videos att ids =
      Res.ok ((chunked ids 50).map (fun b => chunkVal (att b))).flatten ∧
    (∀ b, (∀ t, t ≤ 3 → att b t = Res.quotaErr ∨ att b t = Res.httpErr) →
      chunkVal (att b) = []) := by
  constructor
  · rw [fetch_videos, fetchVideosGo_ok att hnexc]
    simp
  · intro b hfail
    rw [chunkVal, chunkAttempt_all_fail (att b) hfail]

/-- Attempt oracle for the C5 results: the first chunk (the only one of
length 50) always fails with a non-quota `HttpError`; any other chunk
succeeds immediately with one item. -/
def failFirstChunkAtt : List String → Nat → Res (List Video) :=
  fun b _ => if b.length = 50 then Res.httpErr else Res.ok [⟨some 1, some 2, some 3⟩]

/-- Environment for the C5 counterexample: the detail endpoint behaves
like `failFirstChunkAtt` at every key. -/
def failFirstChunkEnv : Env :=
  { stubEnv with
    vidDetails := fun b _ =>
      if b.length = 50 then Res.httpErr else Res.ok [⟨some 1, some 2, some 3⟩] }

/-- C5 counterexample: on 51 ids, analytics.py's `fetch_videos_details`
propagates the first chunk's error and never issues the second chunk's
call — the failed chunk aborts the remaining chunks instead of
contributing zero items, falsifying the claim for this batch fetcher.
(test.py's `fetch_videos` on the same oracle returns the second chunk's
item and no error.) -/
theorem details_chunk_error_aborts_run :
    fetch_videos_details failFirstChunkEnv (List.replicate 51 "v") 0 =
      (Res.httpErr, 0, [List.replicate 50 "v"]) ∧
    fetch_videos failFirstChunkAtt (List.replicate 51 "v") =
      Res.ok [⟨some 1, some 2, some 3⟩] := by
  constructor
  · rfl
  · rfl

/-- Attempt oracle for the C5 witness: the 50-id chunk fails every
attempt, the 1-id chunk succeeds. -/
theorem fetch_videos_failed_chunk_empty_witness :
    fetch_videos failFirstChunkAtt (List.replicate 51 "v") =
      Res.ok ((chunked (List.replicate 51 "v") 50).map
        (fun b => chunkVal (failFirstChunkAtt b))).flatten ∧
    chunkVal (failFirstChunkAtt (List.replicate 50 "v")) = [] := by
  have h := fetch_videos_failed_chunk_empty failFirstChunkAtt (List.replicate 51 "v")
    (by intro b t; rw [failFirstChunkAtt]; split <;> intro hcon <;> cases hcon)
  refine ⟨h.1, h.2 (List.replicate 50 "v") ?_⟩
  intro t ht
  right
  rfl

/-! Time-window aggregation (analytics.py:246-316).  `astimezone(JST)`
re-labels an aware datetime without changing the instant, and comparison
of aware datetimes compares instants, so instants are modelled directly
as seconds and the UTC→JST conversion is the identity on them. -/

def secPerDay : Int := 86400

/-- Embedding of `within_months` (analytics.py:249-251): `now - timedelta(days=30*months)
<= pub <= now`, inclusive at both ends, with the fixed 30-day multiplier. -/
def within_months (pub now : Int) (months : Nat) : Bool :=
  decide (now - 30 * (months : Int) * secPerDay ≤ pub ∧ pub ≤ now)

/-- Whether a video is counted in the `months`-window: absent
`publishedAt` is skipped by the loop (`if not pub: continue`). -/
def inWindow (v : Video) (now : Int) (months : Nat) : Bool :=
  match v.publishedAt with
  | some p => within_months p now months
  | none => false

/-- Accumulators of the `members_averages` loop (analytics.py:282-305). -/
structure AggState where
  count1 : Nat
  likes1 : List Int
  comms1 : List Int
  count2 : Nat
  likes2 : List Int
  comms2 : List Int
deriving DecidableEq, Repr

def aggInit : AggState := ⟨0, [], [], 0, [], []⟩

/-- One iteration of the `for v in videos` loop. -/
def aggStep (now : Int) (s : AggState) (v : Video) : AggState :=
  match v.publishedAt with
  | none => s
  | some p =>
    let in1 := within_months p now 1
    let in2 := within_months p now 2
    { count1 := s.count1 + (if in1 then 1 else 0)
      likes1 := s.likes1 ++ (if in1 then v.likeCount.toList else [])
      comms1 := s.comms1 ++ (if in1 then v.commentCount.toList else [])
      count2 := s.count2 + (if in2 then 1 else 0)
      likes2 := s.likes2 ++ (if in2 then v.likeCount.toList else [])
      comms2 := s.comms2 ++ (if in2 then v.commentCount.toList else []) }

def membersAgg (videos : List Video) (now : Int) : AggState :=
  videos.foldl (aggStep now) aggInit

abbrev MTuple := Nat × Rat × Rat × Nat × Rat × Rat

def zeroTuple : MTuple := (0, 0, 0, 0, 0, 0)

/-- The `(count_1m, avg_like_1m, avg_comment_1m, count_2m, avg_like_2m,
avg_comment_2m)` tuple (analytics.py:307-310). -/
def membersTuple (videos : List Video) (now : Int) : MTuple :=
  let s := membersAgg videos now
  (s.count1, mean_or_zero s.likes1, mean_or_zero s.comms1,
   s.count2, mean_or_zero s.likes2, mean_or_zero s.comms2)

/-- Characterisation of the aggregation loop: each window's counter is the
number of in-window items, and each numeric-field list collects, in input
order, the values carried by in-window items. -/
theorem membersAgg_foldl (now : Int) :
    ∀ (videos : List Video) (s : AggState),
      (videos.foldl (aggStep now) s).count1 =
        s.count1 + (videos.filter (fun v => inWindow v now 1)).length ∧
      (videos.foldl (aggStep now) s).count2 =
        s.count2 + (videos.filter (fun v => inWindow v now 2)).length ∧
      (videos.foldl (aggStep now) s).likes1 =
        s.likes1 ++ (videos.filter (fun v => inWindow v now 1)).filterMap (fun v => v.likeCount) ∧
      (videos.foldl (aggStep now) s).comms1 =
        s.comms1 ++
          (videos.filter (fun v => inWindow v now 1)).filterMap (fun v => v.commentCount) ∧
      (videos.foldl (aggStep now) s).likes2 =
        s.likes2 ++ (videos.filter (fun v => inWindow v now 2)).filterMap (fun v => v.likeCount) ∧
      (videos.foldl (aggStep now) s).comms2 =
        s.comms2 ++
          (videos.filter (fun v => inWindow v now 2)).filterMap (fun v => v.commentCount) := by
  intro videos
  induction videos with
  | nil => intro s; simp
  | cons v vs ih =>
    intro s
    obtain ⟨ih1, ih2, ih3, ih4, ih5, ih6⟩ := ih (aggStep now s v)
    simp only [List.foldl_cons] at *
    cases hp : v.publishedAt with
    | none =>
      have hw1 : inWindow v now 1 = false := by simp [inWindow, hp]
      have hw2 : inWindow v now 2 = false := by simp [inWindow, hp]
      have hstep : aggStep now s v = s := by simp [aggStep, hp]
      rw [hstep] at ih1 ih2 ih3 ih4 ih5 ih6
      rw [hstep]
      simp [hw1, hw2, ih1, ih2, ih3, ih4, ih5, ih6]
    | some p =>
      have hw1 : inWindow v now 1 = within_months p now 1 := by simp [inWindow, hp]
      have hw2 : inWindow v now 2 = within_months p now 2 := by simp [inWindow, hp]
      have hstep : aggStep now s v =
          { count1 := s.count1 + (if within_months p now 1 then 1 else 0)
            likes1 := s.likes1 ++ (if within_months p now 1 then v.likeCount.toList else [])
            comms1 := s.comms1 ++ (if within_months p now 1 then v.commentCount.toList else [])
            count2 := s.count2 + (if within_months p now 2 then 1 else 0)
            likes2 := s.likes2 ++ (if within_months p now 2 then v.likeCount.toList else [])
            comms2 :=
              s.comms2 ++ (if within_months p now 2 then v.commentCount.toList else []) } := by
        simp [aggStep, hp]
      rw [hstep] at ih1 ih2 ih3 ih4 ih5 ih6
      rw [hstep]
      refine ⟨?_, ?_, ?_, ?_, ?_, ?_⟩
      · rw [ih1]
        simp only [List.filter_cons, hw1]
        cases h1 : within_months p now 1 <;> simp <;> omega
      · rw [ih2]
        simp only [List.filter_cons, hw2]
        cases h2 : within_months p now 2 <;> simp <;> omega
      · rw [ih3]
        simp only [List.filter_cons, hw1]
        cases h1 : within_months p now 1 <;> cases hl : v.likeCount <;>
          simp [List.filterMap_cons, hl]
      · rw [ih4]
        simp only [List.filter_cons, hw1]
        cases h1 : within_months p now 1 <;> cases hc : v.commentCount <;>
          simp [List.filterMap_cons, hc]
      · rw [ih5]
        simp only [List.filter_cons, hw2]
        cases h2 : within_months p now 2 <;> cases hl : v.likeCount <;>
          simp [List.filterMap_cons, hl]
      · rw [ih6]
        simp only [List.filter_cons, hw2]
        cases h2 : within_months p now 2 <;> cases hc : v.commentCount <;>
          simp [List.filterMap_cons, hc]

theorem length_filter_mono (p q : α → Bool) (h : ∀ a, p a = true → q a = true) :
    ∀ l : List α, (l.filter p).length ≤ (l.filter q).length := by
  intro l
  induction l with
  | nil => simp
  | cons a as ih =>
    simp only [List.filter_cons]
    cases hp : p a with
    | true =>
      rw [h a hp]
      simpa using ih
    | false =>
      cases hq : q a with
      | true => simp; omega
      | false => simpa using ih

/-- C3: a timestamped item is counted in the `m`-month window exactly when
`now - 30*m days ≤ published ≤ now` — inclusive at both ends, with the
fixed 30-day multiplier (not calendar months), on instants (the UTC+9
conversion preserves the instant); window membership is monotone in the
window length, so every item counted in the 1-month window is also
counted in the 2-month window; and each window's counter independently
counts its own in-window items, whence `count_1m ≤ count_2m`. -/
theorem window_inclusion_monotone (pub now : Int) (m m' : Nat) (videos : List Video) :
    (within_months pub now m = true ↔
      (now - 30 * (m : Int) * secPerDay ≤ pub ∧ pub ≤ now)) ∧
    (m ≤ m' → within_months pub now m = true → within_months pub now m' = true) ∧
    (membersAgg videos now).count1 = (videos.filter (fun v => inWindow v now 1)).length ∧
    (membersAgg videos now).count2 = (videos.filter (fun v => inWindow v now 2)).length ∧
    (membersAgg videos now).count1 ≤ (membersAgg videos now).count2 := by
  have hchar := membersAgg_foldl now videos aggInit
  have hmono : ∀ (pubx : Int) (q q' : Nat), q ≤ q' → within_months pubx now q = true →
      within_months pubx now q' = true := by
    intro pubx q q' hq h
    simp only [within_months, secPerDay, decide_eq_true_eq] at h ⊢
    have hcast : (q : Int) ≤ (q' : Int) := by exact_mod_cast hq
    constructor
    · nlinarith [h.1]
    · exact h.2
  refine ⟨?_, hmono pub m m', ?_, ?_, ?_⟩
  · simp [within_months]
  · simpa [membersAgg, aggInit] using hchar.1
  · simpa [membersAgg, aggInit] using hchar.2.1
  · have h1 : (membersAgg videos now).count1 =
        (videos.filter (fun v => inWindow v now 1)).length := by
      simpa [membersAgg, aggInit] using hchar.1
    have h2 : (membersAgg videos now).count2 =
        (videos.filter (fun v => inWindow v now 2)).length := by
      simpa [membersAgg, aggInit] using hchar.2.1
    rw [h1, h2]
    apply length_filter_mono
    intro v hv
    cases hp : v.publishedAt with
    | none => simp [inWindow, hp] at hv
    | some p =>
      simp only [inWindow, hp] at hv ⊢
      exact hmono p 1 2 (by omega) hv

theorem window_inclusion_monotone_witness :
    (within_months 0 864000 1 = true ↔
      ((864000 : Int) - 30 * (1 : Nat) * secPerDay ≤ 0 ∧ (0 : Int) ≤ 864000)) ∧
    within_months 0 864000 2 = true ∧
    (membersAgg [⟨some 0, some 7, none⟩, ⟨some (-4000000), none, some 2⟩] 864000).count1 = 1 ∧
    (membersAgg [⟨some 0, some 7, none⟩, ⟨some (-4000000), none, some 2⟩] 864000).count2 = 2 := by
  have h := window_inclusion_monotone 0 864000 1 2
    [⟨some 0, some 7, none⟩, ⟨some (-4000000), none, some 2⟩]
  refine ⟨h.1, h.2.1 (by omega) (by decide), by decide, by decide⟩

/-- Window membership as a function of the publish instant alone. -/
def windowB (now : Int) (m : Nat) : Option Int → Bool
  | some p => within_months p now m
  | none => false

theorem inWindow_eq (v : Video) (now : Int) (m : Nat) :
    inWindow v now m = windowB now m v.publishedAt := by
  cases hp : v.publishedAt <;> simp [inWindow, windowB, hp]

theorem filter_length_eq_of_map_eq (f : α → β) (q : β → Bool) :
    ∀ (l l' : List α), l.map f = l'.map f →
      (l.filter (fun a => q (f a))).length = (l'.filter (fun a => q (f a))).length := by
  intro l
  induction l with
  | nil =>
    intro l' h
    cases l' with
    | nil => rfl
    | cons b bs => simp at h
  | cons a as ih =>
    intro l' h
    cases l' with
    | nil => simp at h
    | cons b bs =>
      simp only [List.map_cons, List.cons.injEq] at h
      obtain ⟨hfa, hrest⟩ := h
      simp only [List.filter_cons, hfa]
      cases hq : q (f b) <;> simp [ih bs hrest]

/-- C9: the mean of an empty numeric-field collection is exactly `0.0` and
the computation never reaches Python's zero division (the guard makes
`pyMean` total and equal to the `0.0`-defaulting `mean_or_zero`); a window
whose items carried no like values reports a `0` like-mean while its
`count` is computed from the publish timestamps alone — replacing every
numeric field of every item leaves both window counts unchanged. -/
theorem empty_mean_zero_count_field_blind (nums : List Int) (videos videos' : List Video)
    (now : Int) :
    (pyMean nums).isSome = true ∧
    pyMean nums = some (mean_or_zero nums) ∧
    (nums = [] → mean_or_zero nums = 0) ∧
    ((membersAgg videos now).likes1 = [] → (membersTuple videos now).2.1 = 0) ∧
    (videos.map (fun v => v.publishedAt) = videos'.map (fun v => v.publishedAt) →
      (membersAgg videos now).count1 = (membersAgg videos' now).count1 ∧
      (membersAgg videos now).count2 = (membersAgg videos' now).count2) := by
  refine ⟨?_, pyMean_eq_mean_or_zero nums, ?_, ?_, ?_⟩
  · rw [pyMean_eq_mean_or_zero]
    rfl
  · intro h
    subst h
    rfl
  · intro h
    simp only [membersTuple, h]
    rfl
  · intro h
    have hcount : ∀ m : Nat,
        (videos.filter (fun v => inWindow v now m)).length =
        (videos'.filter (fun v => inWindow v now m)).length := by
      intro m
      simp only [inWindow_eq]
      exact filter_length_eq_of_map_eq (fun v => v.publishedAt) (windowB now m) videos videos' h
    have hv := membersAgg_foldl now videos aggInit
    have hv' := membersAgg_foldl now videos' aggInit
    constructor
    · have e1 : (membersAgg videos now).count1 =
          (videos.filter (fun v => inWindow v now 1)).length := by
        simpa [membersAgg, aggInit] using hv.1
      have e2 : (membersAgg videos' now).count1 =
          (videos'.filter (fun v => inWindow v now 1)).length := by
        simpa [membersAgg, aggInit] using hv'.1
      rw [e1, e2, hcount 1]
    · have e1 : (membersAgg videos now).count2 =
          (videos.filter (fun v => inWindow v now 2)).length := by
        simpa [membersAgg, aggInit] using hv.2.1
      have e2 : (membersAgg videos' now).count2 =
          (videos'.filter (fun v => inWindow v now 2)).length := by
        simpa [membersAgg, aggInit] using hv'.2.1
      rw [e1, e2, hcount 2]

theorem empty_mean_zero_count_field_blind_witness :
    (pyMean []).isSome = true ∧
    pyMean [] = some (mean_or_zero []) ∧
    mean_or_zero [] = 0 ∧
    (membersTuple [⟨some 10, none, some 4⟩] 100).2.1 = 0 ∧
    ((membersAgg [⟨some 10, none, some 4⟩] 100).count1 =
      (membersAgg [⟨some 10, some 999, none⟩] 100).count1 ∧
     (membersAgg [⟨some 10, none, some 4⟩] 100).count2 =
      (membersAgg [⟨some 10, some 999, none⟩] 100).count2) := by
  have h := empty_mean_zero_count_field_blind [] [⟨some 10, none, some 4⟩]
    [⟨some 10, some 999, none⟩] 100
  exact ⟨h.1, h.2.1, h.2.2.1 rfl, h.2.2.2.1 (by decide), h.2.2.2.2 (by decide)⟩

/-! `members_averages` (analytics.py:262-316) and its error swallowing. -/

/-- Embedding of `members_only_playlist_id` with the `"all"` category used by
analytics.py: `"UUMO" + channel_id[2:]`. -/
def members_only_playlist_id (ch : String) : String :=
  "UUMO" ++ String.mk (ch.toList.drop 2)

/-- The de-duplication pass over playlist items (analytics.py:273-277):
first occurrence wins, order preserved, items without a `videoId`
skipped. -/
def dedupIds (items : List PlItem) : List String :=
  items.foldl (fun acc it =>
    match it.videoId with
    | some v => if v ∈ acc then acc else acc ++ [v]
    | none => acc) []

/-- Embedding of `members_averages` (analytics.py:262-316).  Returns the stats tuple
and the rotator index; `none` only when the playlist pagination outran the
model's fuel.  Every `HttpError` (quota ones included) and every other
exception raised by the playlist or detail fetches is caught by the
`except` clauses on lines 311-316 and turned into the all-zero tuple. -/
def members_averages (env : Env) (pfuel : Nat) (i : Nat) (ch : String) :
    Option (MTuple × Nat) :=
  match fetch_playlist_items env (members_only_playlist_id ch) i pfuel with
  | none => none
  | some (Res.ok plItems, i') =>
    if plItems.isEmpty then some (zeroTuple, i')
    else
      match fetch_videos_details env (dedupIds plItems) i' with
      | (Res.ok videos, i'', _) => some (membersTuple videos env.now, i'')
      | (_, i'', _) => some (zeroTuple, i'')
  | some (_, i') => some (zeroTuple, i')

/-- C10: every error during members-only statistics — an `HttpError` from
the playlist or detail fetch (a quota error surviving rotation included)
and any other exception — is caught inside `members_averages`, which then
returns the all-zero tuple so the run continues; the same all-zero tuple
is what an error-free channel with no members-only content in-window
produces, so the two are indistinguishable in the output. -/
theorem members_averages_swallows_errors (env : Env) (pfuel i i' i'' : Nat) (ch : String)
    (e : Res (List PlItem)) (e' : Res (List Video)) (plItems : List PlItem)
    (videos : List Video) (chunks : List (List String)) (now : Int) :
    (fetch_playlist_items env (members_only_playlist_id ch) i pfuel = some (e, i') →
      (∀ xs, e ≠ Res.ok xs) →
      members_averages env pfuel i ch = some (zeroTuple, i')) ∧
    (fetch_playlist_items env (members_only_playlist_id ch) i pfuel =
        some (Res.ok plItems, i') →
      plItems ≠ [] →
      fetch_videos_details env (dedupIds plItems) i' = (e', i'', chunks) →
      (∀ xs, e' ≠ Res.ok xs) →
      members_averages env pfuel i ch = some (zeroTuple, i'')) ∧
    (fetch_playlist_items env (members_only_playlist_id ch) i pfuel =
        some (Res.ok [], i') →
      members_averages env pfuel i ch = some (zeroTuple, i')) ∧
    ((∀ v ∈ videos, inWindow v now 1 = false ∧ inWindow v now 2 = false) →
      membersTuple videos now = zeroTuple) := by
  refine ⟨?_, ?_, ?_, ?_⟩
  · intro hfetch hne
    cases e with
    | ok xs => exact absurd rfl (hne xs)
    | quotaErr => simp [members_averages, hfetch]
    | httpErr => simp [members_averages, hfetch]
    | exc => simp [members_averages, hfetch]
  · intro hfetch hnonempty hdetails hne
    have hemp : plItems.isEmpty = false := by
      cases plItems with
      | nil => exact absurd rfl hnonempty
      | cons a as => rfl
    cases e' with
    | ok xs => exact absurd rfl (hne xs)
    | quotaErr => simp [members_averages, hfetch, hemp, hdetails]
    | httpErr => simp [members_averages, hfetch, hemp, hdetails]
    | exc => simp [members_averages, hfetch, hemp, hdetails]
  · intro hfetch
    simp [members_averages, hfetch]
  · intro hall
    have hf1 : videos.filter (fun v => inWindow v now 1) = [] := by
      rw [List.filter_eq_nil_iff]
      intro v hv
      simp [(hall v hv).1]
    have hf2 : videos.filter (fun v => inWindow v now 2) = [] := by
      rw [List.filter_eq_nil_iff]
      intro v hv
      simp [(hall v hv).2]
    have hch := membersAgg_foldl now videos aggInit
    obtain ⟨h1, h2, h3, h4, h5, h6⟩ := hch
    rw [hf1] at h1 h3 h4
    rw [hf2] at h2 h5 h6
    simp only [membersTuple, membersAgg]
    rw [h1, h2, h3, h4, h5, h6]
    rfl

/-- Environment whose playlist endpoint always reports quota exhaustion. -/
def quotaPlaylistEnv : Env := { stubEnv with plPage := fun _ _ _ => Res.quotaErr }

theorem members_averages_swallows_errors_witness :
    members_averages quotaPlaylistEnv 5 0 "UCchannelx" = some (zeroTuple, 0) ∧
    membersTuple [⟨some (-99999999), some 3, some 4⟩] 0 = zeroTuple := by
  have h := members_averages_swallows_errors quotaPlaylistEnv 5 0 0 0 "UCchannelx"
    Res.quotaErr Res.exc [] [⟨some (-99999999), some 3, some 4⟩] [] 0
  refine ⟨h.1 (by rfl) (by intro xs hcon; cases hcon), h.2.2.2 ?_⟩
  intro v hv
  rcases List.mem_singleton.mp hv with rfl
  constructor <;> rfl

/-! The main loop (analytics.py:319-412).  Per channel: resolve the
reference (quota errors are swallowed there), fetch title/subscribers,
list the period's videos, fetch their stats, compute members-only stats
(which swallows every error), and append the row; an `HttpError`
propagating to the loop terminates the run with the rows so far when it
is quota-classified, otherwise the channel is skipped, as is a channel on
a resolution/info failure or any other exception.  The output artifact is
the rows list at termination (`write_results` rewrites the same file each
iteration, so the last write is what remains; an empty rows list writes
no file at all — analytics.py:84-86). -/

/-- Embedding of `get_channel_info` (analytics.py:158-166): `ok none` models an empty
`items` (→ `(None, None)`); hidden subscriber counts are `none` in the
pair. -/
def get_channel_info (env : Env) (ch : String) (i : Nat) :
    Res (Option (String × Option Int)) × Nat :=
  let r := with_quota_rotation (fun k => env.chanInfo ch k) env.nkeys i
  (r.1, r.2.1)

/-- Chunk loop of `fetch_video_stats` (analytics.py:193-206): collects the
present `viewCount`s and `commentCount`s; errors propagate. -/
def fetchVSGo (env : Env) : List (List String) → Nat → List Int → List Int →
    Res (List Int × List Int) × Nat
  | [], i, vs, cs => (Res.ok (vs, cs), i)
  | b :: bs, i, vs, cs =>
    match with_quota_rotation (fun k => env.videoStats b k) env.nkeys i with
    | (Res.ok sts, i', _) =>
      fetchVSGo env bs i' (vs ++ sts.filterMap (fun st => st.view))
        (cs ++ sts.filterMap (fun st => st.comment))
    | (e, i', _) => (e.castErr, i')

/-- Embedding of `fetch_video_stats` (analytics.py:193-206). -/
def fetch_video_stats (env : Env) (vids : List String) (i : Nat) :
    Res (List Int × List Int) × Nat :=
  fetchVSGo env (chunked vids 50) i [] []

/-- One output record (analytics.py:369-382); the `.2f` formatting of the
means is presentation only and the numeric values are kept. -/
structure Row where
  channel_url : String
  channelTitle : String
  subscriberCount : Option Int
  uploads : Nat
  avgViewCount : Rat
  avgCommentCount : Rat
  membersCount_1m : Nat
  membersAvgLike_1m : Rat
  membersAvgComment_1m : Rat
  membersCount_2m : Nat
  membersAvgLike_2m : Rat
  membersAvgComment_2m : Rat
deriving DecidableEq, Repr

/-- How processing one channel ends: a row is appended; the channel is
skipped (resolution failure, missing info, non-quota `HttpError`, other
exception — all `continue`); a quota `HttpError` reached the loop's
handler (run stops, rows written); or the model ran out of playlist
fuel. -/
inductive ChanOut where
  | record (r : Row)
  | skipped
  | quotaStop
  | diverged
deriving DecidableEq, Repr

/-- Processing of one channel inside the `for url in urls` loop
(analytics.py:345-408). -/
def processChannel (env : Env) (pfuel : Nat) (st : RState) (url : String) :
    ChanOut × RState :=
  match resolve_channel_id env st url with
  | (ResolveOut.exc, st', _) => (ChanOut.skipped, st')
  | (ResolveOut.res none, st', _) => (ChanOut.skipped, st')
  | (ResolveOut.res (some c), st', _) =>
    if c = "" then (ChanOut.skipped, st')
    else
      match get_channel_info env c st'.idx with
      | (Res.quotaErr, i1) => (ChanOut.quotaStop, ⟨st'.cache, i1⟩)
      | (Res.httpErr, i1) => (ChanOut.skipped, ⟨st'.cache, i1⟩)
      | (Res.exc, i1) => (ChanOut.skipped, ⟨st'.cache, i1⟩)
      | (Res.ok info, i1) =>
        match info with
        | none => (ChanOut.skipped, ⟨st'.cache, i1⟩)
        | some (title, subs) =>
          if title = "" then (ChanOut.skipped, ⟨st'.cache, i1⟩)
          else
            match list_video_ids_in_period env c i1 50 with
            | (Res.ok vids, i2, _) =>
              match fetch_video_stats env vids i2 with
              | (Res.ok (views, comments), i3) =>
                match members_averages env pfuel i3 c with
                | none => (ChanOut.diverged, ⟨st'.cache, i3⟩)
                | some ((c1, l1, m1, c2, l2, m2), i4) =>
                  (ChanOut.record
                    { channel_url := url, channelTitle := title, subscriberCount := subs,
                      uploads := vids.length, avgViewCount := mean_or_zero views,
                      avgCommentCount := mean_or_zero comments,
                      membersCount_1m := c1, membersAvgLike_1m := l1,
                      membersAvgComment_1m := m1, membersCount_2m := c2,
                      membersAvgLike_2m := l2, membersAvgComment_2m := m2 },
                   ⟨st'.cache, i4⟩)
              | (Res.quotaErr, i3) => (ChanOut.quotaStop, ⟨st'.cache, i3⟩)
              | (_, i3) => (ChanOut.skipped, ⟨st'.cache, i3⟩)
            | (Res.quotaErr, i2, _) => (ChanOut.quotaStop, ⟨st'.cache, i2⟩)
            | (_, i2, _) => (ChanOut.skipped, ⟨st'.cache, i2⟩)

/-- The sequence of per-channel outcomes the loop would produce, with the
cache and rotator state threaded through in program order. -/
def chanOutcomes (env : Env) (pfuel : Nat) : List String → RState → List ChanOut
  | [], _ => []
  | url :: rest, st =>
    let r := processChannel env pfuel st url
    r.1 :: chanOutcomes env pfuel rest r.2

def isStop : ChanOut → Bool
  | ChanOut.quotaStop => true
  | ChanOut.diverged => true
  | _ => false

/-- The outcomes actually reached: everything up to and including the
first stopping outcome. -/
def upToStop : List ChanOut → List ChanOut
  | [] => []
  | o :: os => if isStop o then [o] else o :: upToStop os

/-- The rows carried by a list of outcomes. -/
def rowsOf (os : List ChanOut) : List Row :=
  os.filterMap fun o =>
    match o with
    | ChanOut.record r => some r
    | _ => none

/-- The `for url in urls` loop of `main` with the rows accumulator and the
count of channels entered so far; returns the final rows and that count,
or `none` when the model ran out of playlist fuel. -/
def mainGo (env : Env) (pfuel : Nat) : List String → RState → List Row → Nat →
    Option (List Row × Nat)
  | [], _, acc, att => some (acc, att)
  | url :: rest, st, acc, att =>
    match processChannel env pfuel st url with
    | (ChanOut.record r, st') => mainGo env pfuel rest st' (acc ++ [r]) (att + 1)
    | (ChanOut.skipped, st') => mainGo env pfuel rest st' acc (att + 1)
    | (ChanOut.quotaStop, _) => some (acc, att + 1)
    | (ChanOut.diverged, _) => none

/-- Embedding of `main` (analytics.py:319-412) from an empty cache and the first key. -/
def mainRun (env : Env) (pfuel : Nat) (urls : List String) : Option (List Row × Nat) :=
  mainGo env pfuel urls ⟨[], 0⟩ [] 0

theorem mainGo_spec (env : Env) (pfuel : Nat) :
    ∀ (urls : List String) (st : RState) (acc : List Row) (att : Nat),
      mainGo env pfuel urls st acc att =
        (if ChanOut.diverged ∈ upToStop (chanOutcomes env pfuel urls st) then none
         else some (acc ++ rowsOf (upToStop (chanOutcomes env pfuel urls st)),
                    att + (upToStop (chanOutcomes env pfuel urls st)).length)) := by
  intro urls
  induction urls with
  | nil => intro st acc att; simp [mainGo, chanOutcomes, upToStop, rowsOf]
  | cons url rest ih =>
    intro st acc att
    rcases hpc : processChannel env pfuel st url with ⟨o, st'⟩
    cases o with
    | record r =>
      have hout : chanOutcomes env pfuel (url :: rest) st =
          ChanOut.record r :: chanOutcomes env pfuel rest st' := by
        simp [chanOutcomes, hpc]
      rw [hout]
      have hup : upToStop (ChanOut.record r :: chanOutcomes env pfuel rest st') =
          ChanOut.record r :: upToStop (chanOutcomes env pfuel rest st') := by
        simp [upToStop, isStop]
      rw [hup]
      simp only [mainGo, hpc]
      rw [ih st' (acc ++ [r]) (att + 1)]
      by_cases hdiv : ChanOut.diverged ∈ upToStop (chanOutcomes env pfuel rest st')
      · simp [hdiv]
      · rw [if_neg hdiv, if_neg (by simp [hdiv])]
        simp only [rowsOf, List.filterMap_cons]
        simp only [Option.some.injEq, Prod.mk.injEq, List.length_cons]
        constructor
        · simp
        · omega
    | skipped =>
      have hout : chanOutcomes env pfuel (url :: rest) st =
          ChanOut.skipped :: chanOutcomes env pfuel rest st' := by
        simp [chanOutcomes, hpc]
      rw [hout]
      have hup : upToStop (ChanOut.skipped :: chanOutcomes env pfuel rest st') =
          ChanOut.skipped :: upToStop (chanOutcomes env pfuel rest st') := by
        simp [upToStop, isStop]
      rw [hup]
      simp only [mainGo, hpc]
      rw [ih st' acc (att + 1)]
      by_cases hdiv : ChanOut.diverged ∈ upToStop (chanOutcomes env pfuel rest st')
      · simp [hdiv]
      · rw [if_neg hdiv, if_neg (by simp [hdiv])]
        simp only [rowsOf, List.filterMap_cons]
        simp only [Option.some.injEq, Prod.mk.injEq, List.length_cons]
        constructor
        · simp
        · omega
    | quotaStop =>
      have hout : chanOutcomes env pfuel (url :: rest) st =
          ChanOut.quotaStop :: chanOutcomes env pfuel rest st' := by
        simp [chanOutcomes, hpc]
      rw [hout]
      simp [mainGo, hpc, upToStop, isStop, rowsOf]
    | diverged =>
      have hout : chanOutcomes env pfuel (url :: rest) st =
          ChanOut.diverged :: chanOutcomes env pfuel rest st' := by
        simp [chanOutcomes, hpc]
      rw [hout]
      simp [mainGo, hpc, upToStop, isStop, rowsOf]

/-- C2 (amended): the run's output is exactly the rows of the channels
processed up to and including the first channel whose processing raised a
quota-classified `HttpError` into the main loop; no later channel is
entered, and the rows of every fully processed earlier channel — and only
those — are in the output.  However, the claim's premise that *any*
all-credentials exhaustion stops the run is too strong: a quota error
swallowed inside `resolve_channel_id` or `members_averages` does not stop
it (see the counterexample), so the stopping outcome must come from the
channel-info, period-listing or stats calls. -/
theorem main_output_exactly_processed_channels (env : Env) (pfuel : Nat)
    (urls : List String) :
    mainRun env pfuel urls =
      (if ChanOut.diverged ∈ upToStop (chanOutcomes env pfuel urls ⟨[], 0⟩) then none
       else some (rowsOf (upToStop (chanOutcomes env pfuel urls ⟨[], 0⟩)),
                  (upToStop (chanOutcomes env pfuel urls ⟨[], 0⟩)).length)) := by
  have h := mainGo_spec env pfuel urls ⟨[], 0⟩ [] 0
  simpa [mainRun] using h

/-- Environment in which every remote call reports quota exhaustion at
every key. -/
def allQuotaEnv : Env :=
  { stubEnv with
    handleRes := fun _ _ => Res.quotaErr
    userRes := fun _ _ => Res.quotaErr
    searchRes := fun _ _ => Res.quotaErr
    chanInfo := fun _ _ => Res.quotaErr
    searchPage := fun _ _ _ => Res.quotaErr
    videoStats := fun _ _ => Res.quotaErr
    plPage := fun _ _ _ => Res.quotaErr
    vidDetails := fun _ _ => Res.quotaErr }

/-- C2 counterexample: with a single credential whose every call is
quota-rejected, resolving the first handle URL exhausts the pool and
raises the terminal quota error — yet `resolve_channel_id` swallows it,
so the run does not terminate there: the second channel is still entered
and even issues a fresh remote lookup after exhaustion, contradicting
"no further channels are processed".  (The output is empty because no
channel resolves.) -/
theorem run_continues_after_quota_exhaustion_in_resolve :
    with_quota_rotation (fun k => allQuotaEnv.handleRes "@a" k) allQuotaEnv.nkeys 0 =
      (Res.quotaErr, 0, [0]) ∧
    mainRun allQuotaEnv 5 ["@a", "@b"] = some ([], 2) ∧
    (resolve_channel_id allQuotaEnv (processChannel allQuotaEnv 5 ⟨[], 0⟩ "@a").2 "@b").2.2 =
      [Call.handleL "@b" 0] := by
  refine ⟨rfl, rfl, rfl⟩

end VA
